import Mathlib

/-!
Shallow embedding of the Cadence event-bus runtime (signal bus and clock
subsystem) and proofs about its observable behaviour.

Times and durations are modelled as rationals (JS numbers used for
millisecond arithmetic); sequence numbers and counters as naturals.
Handler invocations and other environment effects (wall-clock reads,
handler outcomes, store/transport results) are passed in explicitly, so
every operation of the source becomes a pure state-transition function.
-/

set_option linter.unusedVariables false

namespace Cadence

/-- Reason a tick fired: one of `interval`, `catchup`, `manual`, `bridge`. -/
inductive Reason where
  | interval
  | catchup
  | manual
  | bridge
  deriving DecidableEq, Repr

/-- Tick record produced by a clock (`ts`, `seq`, `reason`, optional `drift`). -/
structure Tick where
  ts : ℚ
  seq : ℕ
  reason : Reason
  drift : Option ℚ
  deriving DecidableEq, Repr

/-- Snapshot returned by a clock's `stats()`. -/
structure TickStats where
  tickCount : ℕ
  droppedTicks : ℕ
  errors : ℕ
  avgHandlerMs : ℚ
  avgDriftMs : ℚ
  lastTickAt : ℚ
  maxHandlerMs : ℚ
  deriving DecidableEq, Repr

/-- All-zero tick stats, the value every counter has right after `resetStats`. -/
def TickStats.zero : TickStats :=
  { tickCount := 0, droppedTicks := 0, errors := 0, avgHandlerMs := 0,
    avgDriftMs := 0, lastTickAt := 0, maxHandlerMs := 0 }

/-- Environment-supplied outcome of one handler invocation: whether the
handler threw, and the elapsed time the clock measures around the await. -/
structure HandlerOutcome where
  throws : Bool
  elapsed : ℚ
  deriving DecidableEq, Repr

/-- A handler behaviour maps the tick a handler receives to its outcome. -/
def HandlerBehavior : Type := Tick → HandlerOutcome

/-- Errors thrown by clock lifecycle operations. -/
inductive ClockErr where
  | alreadyRunning
  | notRunning
  | handlerError
  deriving DecidableEq, Repr

namespace TestClock

/-- Closure state of `createTestClock` (src/src/clock/test-clock.ts):
`handler` (modelled as a presence flag), `_running`, `_seq`, `virtualTime`,
`accumulator`, and the stats counters. -/
structure TCState where
  handlerPresent : Bool
  running : Bool
  seq : ℕ
  virtualTime : ℚ
  accumulator : ℚ
  tickCount : ℕ
  errors : ℕ
  totalHandlerMs : ℚ
  lastTickAt : ℚ
  maxHandlerMs : ℚ
  deriving DecidableEq, Repr

/-- State right after `createTestClock(intervalMs)`. -/
def TCState.init : TCState :=
  { handlerPresent := false, running := false, seq := 0, virtualTime := 0,
    accumulator := 0, tickCount := 0, errors := 0, totalHandlerMs := 0,
    lastTickAt := 0, maxHandlerMs := 0 }

/-- The private `resetStats()` of the test clock. -/
def resetStats (s : TCState) : TCState :=
  { s with tickCount := 0, errors := 0, totalHandlerMs := 0,
           lastTickAt := 0, maxHandlerMs := 0 }

/-- `fireSingleTick` of the test clock: builds the tick at the current
virtual time and seq, bumps `seq`/`tickCount`/`lastTickAt`, then awaits the
handler; a throwing handler bumps `errors` and rethrows (the returned `Bool`),
skipping the elapsed-time bookkeeping. Every call site passes "manual". -/
def fireSingleTick (η : HandlerBehavior) (s : TCState) :
    TCState × Option Tick × Bool :=
  if s.handlerPresent = false then (s, none, false)
  else
    let tick : Tick := { ts := s.virtualTime, seq := s.seq, reason := .manual, drift := none }
    let s1 := { s with seq := s.seq + 1, tickCount := s.tickCount + 1,
                       lastTickAt := s.virtualTime }
    let o := η tick
    if o.throws then
      ({ s1 with errors := s1.errors + 1 }, some tick, true)
    else
      ({ s1 with totalHandlerMs := s1.totalHandlerMs + o.elapsed,
                 maxHandlerMs := max s1.maxHandlerMs o.elapsed }, some tick, false)

/-- The tick-firing loop shared by `tick(count)` and `advanceBy`: each
iteration advances `virtualTime` by `intervalMs` and fires one tick; a
handler throw aborts the remaining iterations (the exception propagates). -/
def tickLoop (I : ℚ) (η : HandlerBehavior) : ℕ → TCState → TCState × List Tick × Bool
  | 0, s => (s, [], false)
  | n + 1, s =>
    let s1 := { s with virtualTime := s.virtualTime + I }
    let r := fireSingleTick η s1
    if r.2.2 then (r.1, r.2.1.toList, true)
    else
      let rest := tickLoop I η n r.1
      (rest.1, r.2.1.toList ++ rest.2.1, rest.2.2)

/-- `start(h)`: throws "Clock already running" when running; otherwise just
registers the handler and flips `_running` — it does NOT touch `seq`,
`virtualTime`, `accumulator` or the stats. -/
def start (s : TCState) : TCState × Option ClockErr :=
  if s.running then (s, some .alreadyRunning)
  else ({ s with handlerPresent := true, running := true }, none)

/-- `stop()`: clears the handler and the accumulator; keeps everything else. -/
def stop (s : TCState) : TCState :=
  { s with running := false, handlerPresent := false, accumulator := 0 }

/-- `tick(count)`: requires running, then runs the loop `count` times. -/
def tickOp (I : ℚ) (η : HandlerBehavior) (count : ℕ) (s : TCState) :
    TCState × List Tick × Option ClockErr :=
  if s.running = false then (s, [], some .notRunning)
  else
    let r := tickLoop I η count s
    (r.1, r.2.1, if r.2.2 then some .handlerError else none)

/-- `advanceBy(ms)`: requires running; adds `ms` to the accumulator, drains
`Math.floor(accumulator / intervalMs)` intervals from it, then fires that
many ticks through the loop. -/
def advanceBy (I : ℚ) (η : HandlerBehavior) (x : ℚ) (s : TCState) :
    TCState × List Tick × Option ClockErr :=
  if s.running = false then (s, [], some .notRunning)
  else
    let acc := s.accumulator + x
    let ticksToFire : ℤ := ⌊acc / I⌋
    let s1 := { s with accumulator := acc - ticksToFire * I }
    let r := tickLoop I η ticksToFire.toNat s1
    (r.1, r.2.1, if r.2.2 then some .handlerError else none)

/-- `flush()`: requires running; when the accumulator is positive, advances
`virtualTime` by the whole residue, zeroes the accumulator and fires one tick. -/
def flush (η : HandlerBehavior) (s : TCState) :
    TCState × List Tick × Option ClockErr :=
  if s.running = false then (s, [], some .notRunning)
  else if 0 < s.accumulator then
    let s1 := { s with virtualTime := s.virtualTime + s.accumulator, accumulator := 0 }
    let r := fireSingleTick η s1
    (r.1, r.2.1.toList, if r.2.2 then some .handlerError else none)
  else (s, [], none)

/-- `reset()`: zeroes `virtualTime`, `seq`, `accumulator` and all stats. -/
def reset (s : TCState) : TCState :=
  resetStats { s with virtualTime := 0, seq := 0, accumulator := 0 }

/-- `stats()` of the test clock: `droppedTicks` and `avgDriftMs` are hard 0. -/
def stats (s : TCState) : TickStats :=
  { tickCount := s.tickCount, droppedTicks := 0, errors := s.errors,
    avgHandlerMs := if 0 < s.tickCount then s.totalHandlerMs / s.tickCount else 0,
    avgDriftMs := 0, lastTickAt := s.lastTickAt, maxHandlerMs := s.maxHandlerMs }

/-- The `pendingTicks` getter: `Math.floor(accumulator / intervalMs)`. -/
def pendingTicks (I : ℚ) (s : TCState) : ℤ := ⌊s.accumulator / I⌋

/-- One public operation of the test clock. -/
inductive TCOp where
  | start
  | stop
  | tick (count : ℕ)
  | advanceBy (x : ℚ)
  | flush
  | reset
  deriving DecidableEq, Repr

/-- Apply one public operation; a thrown error leaves the returned state at
the point the throw happened (the caller catches it and may keep going). -/
def applyOp (I : ℚ) (η : HandlerBehavior) : TCOp → TCState → TCState × List Tick × Option ClockErr
  | .start, s => let r := start s; (r.1, [], r.2)
  | .stop, s => (stop s, [], none)
  | .tick n, s => tickOp I η n s
  | .advanceBy x, s => advanceBy I η x s
  | .flush, s => flush η s
  | .reset, s => (reset s, [], none)

/-- Run a sequence of public operations, concatenating the emitted ticks. -/
def runOps (I : ℚ) (η : HandlerBehavior) : List TCOp → TCState → TCState × List Tick
  | [], s => (s, [])
  | op :: rest, s =>
    let r := applyOp I η op s
    let r2 := runOps I η rest r.1
    (r2.1, r.2.1 ++ r2.2)

/-- Run a sequence of `advanceBy` calls, concatenating the emitted ticks. -/
def runAdvances (I : ℚ) (η : HandlerBehavior) : List ℚ → TCState → TCState × List Tick
  | [], s => (s, [])
  | x :: rest, s =>
    let r := advanceBy I η x s
    let r2 := runAdvances I η rest r.1
    (r2.1, r.2.1 ++ r2.2)

/-- State of a test clock started right after `reset()` (equally, a freshly
created one that was started): everything zero, running with a handler. -/
def freshRunning : TCState :=
  { TCState.init with handlerPresent := true, running := true }

/-- Argument well-formedness of one public operation: `advanceBy` got a
non-negative amount (the other operations are unconstrained). -/
def TCOp.nonneg : TCOp → Prop
  | .advanceBy x => 0 ≤ x
  | _ => True

end TestClock

namespace BridgeClock

/-- Closure state of `createBridgeClock` (the bridge-clock module):
`handler` presence, `_running`, `_seq` and the stats counters. -/
structure BCState where
  handlerPresent : Bool
  running : Bool
  seq : ℕ
  tickCount : ℕ
  errors : ℕ
  totalHandlerMs : ℚ
  lastTickAt : ℚ
  maxHandlerMs : ℚ
  deriving DecidableEq, Repr

/-- State right after `createBridgeClock()`. -/
def BCState.init : BCState :=
  { handlerPresent := false, running := false, seq := 0, tickCount := 0,
    errors := 0, totalHandlerMs := 0, lastTickAt := 0, maxHandlerMs := 0 }

/-- Outcome of the synchronous part of a bridge-clock handler call:
it either throws synchronously, returns synchronously, or returns a
still-pending promise (whose stats update happens later, not in `push`). -/
inductive PushOutcome where
  | throwsSync (elapsed : ℚ)
  | syncDone (elapsed : ℚ)
  | asyncPending
  deriving DecidableEq, Repr

/-- `start(h)` of the bridge clock: rejects a running clock, otherwise
registers the handler and zeroes `_seq` and every stats counter. -/
def start (s : BCState) : BCState × Option ClockErr :=
  if s.running then (s, some .alreadyRunning)
  else
    ({ s with handlerPresent := true, running := true, seq := 0, tickCount := 0,
              errors := 0, totalHandlerMs := 0, lastTickAt := 0, maxHandlerMs := 0 }, none)

/-- `stop()` of the bridge clock. -/
def stop (s : BCState) : BCState :=
  { s with running := false, handlerPresent := false }

/-- `push(reason?)`: a silent no-op unless running with a handler; otherwise
builds one tick with reason "bridge" at the current wall time `now`, bumps
`seq`/`tickCount`/`lastTickAt`, and invokes the handler. A synchronous throw
is caught (errors incremented, elapsed recorded); a pending async result
leaves the remaining stats updates to the later promise continuation. The
function is total — nothing propagates out of `push`. -/
def push (now : ℚ) (o : PushOutcome) (s : BCState) : BCState × Option Tick :=
  if s.running = false ∨ s.handlerPresent = false then (s, none)
  else
    let tick : Tick := { ts := now, seq := s.seq, reason := .bridge, drift := none }
    let s1 := { s with seq := s.seq + 1, tickCount := s.tickCount + 1, lastTickAt := now }
    match o with
    | .throwsSync e =>
      ({ s1 with errors := s1.errors + 1, totalHandlerMs := s1.totalHandlerMs + e,
                 maxHandlerMs := max s1.maxHandlerMs e }, some tick)
    | .syncDone e =>
      ({ s1 with totalHandlerMs := s1.totalHandlerMs + e,
                 maxHandlerMs := max s1.maxHandlerMs e }, some tick)
    | .asyncPending => (s1, some tick)

/-- `stats()` of the bridge clock: `droppedTicks` and `avgDriftMs` are hard 0. -/
def stats (s : BCState) : TickStats :=
  { tickCount := s.tickCount, droppedTicks := 0, errors := s.errors,
    avgHandlerMs := if 0 < s.tickCount then s.totalHandlerMs / s.tickCount else 0,
    avgDriftMs := 0, lastTickAt := s.lastTickAt, maxHandlerMs := s.maxHandlerMs }

/-- Run a list of pushes, collecting the emitted ticks. -/
def runPushes : List (ℚ × PushOutcome) → BCState → BCState × List Tick
  | [], s => (s, [])
  | (now, o) :: rest, s =>
    let r := push now o s
    let r2 := runPushes rest r.1
    (r2.1, r.2.toList ++ r2.2)

end BridgeClock

namespace IntervalClock

/-- Closure state of `createIntervalClock` (the interval-clock module):
handler presence, `_running`, `_seq`, the `busy` flag, all stats counters,
the drift-warning counter, `nextIdealTime` and the adaptive accumulator. -/
structure ICState where
  handlerPresent : Bool
  running : Bool
  seq : ℕ
  busy : Bool
  tickCount : ℕ
  droppedTicks : ℕ
  errors : ℕ
  totalHandlerMs : ℚ
  totalDriftMs : ℚ
  lastTickAt : ℚ
  maxHandlerMs : ℚ
  consecutiveHighDrift : ℕ
  nextIdealTime : ℚ
  accumulator : ℚ
  deriving DecidableEq, Repr

/-- State right after `createIntervalClock(options)` (for a valid interval). -/
def ICState.init : ICState :=
  { handlerPresent := false, running := false, seq := 0, busy := false,
    tickCount := 0, droppedTicks := 0, errors := 0, totalHandlerMs := 0,
    totalDriftMs := 0, lastTickAt := 0, maxHandlerMs := 0,
    consecutiveHighDrift := 0, nextIdealTime := 0, accumulator := 0 }

/-- The private `resetStats()` of the interval clock (it also resets the
drift-warning counter). -/
def resetStats (s : ICState) : ICState :=
  { s with tickCount := 0, droppedTicks := 0, errors := 0, totalHandlerMs := 0,
           totalDriftMs := 0, lastTickAt := 0, maxHandlerMs := 0,
           consecutiveHighDrift := 0 }

/-- Environment inputs of one `fireTick` call: the reason and drift the
scheduler passes, the wall time `Date.now()` reads, and the handler outcome. -/
structure FireIn where
  reason : Reason
  drift : Option ℚ
  now : ℚ
  outcome : HandlerOutcome
  deriving DecidableEq, Repr

/-- Whether a fire input counts as high drift: `|drift| > intervalMs * 0.8`
(a missing drift never does — the detector is skipped entirely then). -/
def highDrift (I : ℚ) (x : FireIn) : Bool :=
  match x.drift with
  | none => false
  | some d => decide (|d| > I * (4 / 5))

/-- `fireTick(reason, drift)` of the interval clock: builds the tick, bumps
`seq`/`tickCount`/`lastTickAt`; when a drift is provided, accumulates
`|drift|` and updates the drift-warning detector (counter `consecutiveHighDrift`
against `DRIFT_WARN_RATIO = 0.8` and `DRIFT_WARN_COUNT = 5`; the returned
`Bool` says whether `onDriftWarning` was invoked, which also requires the
callback to be configured, `hasWarnCb`). The handler is then awaited: a throw
bumps `errors` (and calls `onError`); elapsed-time stats update either way. -/
def fireTick (I : ℚ) (hasWarnCb : Bool) (x : FireIn) (s : ICState) :
    ICState × Option Tick × Bool :=
  if s.handlerPresent = false then (s, none, false)
  else
    let tick : Tick := { ts := x.now, seq := s.seq, reason := x.reason, drift := x.drift }
    let s1 := { s with seq := s.seq + 1, tickCount := s.tickCount + 1, lastTickAt := x.now }
    let det :=
      match x.drift with
      | none => (s1, false)
      | some d =>
        let s2 := { s1 with totalDriftMs := s1.totalDriftMs + |d| }
        if |d| > I * (4 / 5) then
          let s3 := { s2 with consecutiveHighDrift := s2.consecutiveHighDrift + 1 }
          (s3, decide (5 ≤ s3.consecutiveHighDrift) && hasWarnCb)
        else ({ s2 with consecutiveHighDrift := 0 }, false)
    let s4 := if x.outcome.throws then { det.1 with errors := det.1.errors + 1 } else det.1
    let s5 := { s4 with totalHandlerMs := s4.totalHandlerMs + x.outcome.elapsed,
                        maxHandlerMs := max s4.maxHandlerMs x.outcome.elapsed }
    (s5, some tick, det.2)

/-- `start(h)` of the interval clock: rejects a running clock, otherwise
registers the handler, zeroes `_seq` and all stats (including the
drift-warning counter), and resets the scheduler state before scheduling. -/
def start (s : ICState) : ICState × Option ClockErr :=
  if s.running then (s, some .alreadyRunning)
  else
    (resetStats { s with handlerPresent := true, running := true, seq := 0,
                         nextIdealTime := 0, accumulator := 0, busy := false }, none)

/-- `stop()` of the interval clock (the pending timer is also cleared). -/
def stop (s : ICState) : ICState :=
  { s with running := false, handlerPresent := false, busy := false }

/-- `stats()` of the interval clock. -/
def stats (s : ICState) : TickStats :=
  { tickCount := s.tickCount, droppedTicks := s.droppedTicks, errors := s.errors,
    avgHandlerMs := if 0 < s.tickCount then s.totalHandlerMs / s.tickCount else 0,
    avgDriftMs := if 0 < s.tickCount then s.totalDriftMs / s.tickCount else 0,
    lastTickAt := s.lastTickAt, maxHandlerMs := s.maxHandlerMs }

/-- Run a list of `fireTick` calls (covering any scheduler policy's calls
within one epoch), collecting the emitted ticks and the warning flags. -/
def run (I : ℚ) (hasWarnCb : Bool) : List FireIn → ICState → ICState × List (Tick × Bool)
  | [], s => (s, [])
  | x :: rest, s =>
    let r := fireTick I hasWarnCb x s
    let r2 := run I hasWarnCb rest r.1
    (r2.1, (r.2.1.map (fun t => (t, r.2.2))).toList ++ r2.2)

/-- Length of the maximal all-high-drift suffix of a fire-input history:
the value the consecutive-high-drift counter holds after processing it. -/
def trailHigh (I : ℚ) (l : List FireIn) : ℕ :=
  (l.reverse.takeWhile (highDrift I)).length

end IntervalClock

namespace Bus

/-- Handlers are identified by reference; an id stands for one function object. -/
abbrev HandlerId := ℕ

/-- A signal record (`payload` is an opaque stand-in). -/
structure Signal where
  type : String
  ts : ℚ
  id : String
  payload : ℕ
  deriving DecidableEq, Repr

/-- Snapshot returned by the bus `stats()`. -/
structure BusStats where
  emitted : ℕ
  handled : ℕ
  errors : ℕ
  handlers : ℕ
  anyHandlers : ℕ
  middleware : ℕ
  deriving DecidableEq, Repr

/-- Observable behaviour of one registered middleware: whether its body
throws (before reaching `next`), and whether it calls `next` at all. -/
structure Mw where
  fails : Bool
  callsNext : Bool
  deriving DecidableEq, Repr

/-- A handler behaviour table: whether the handler with a given id throws. -/
def HB : Type := HandlerId → Bool

/-- Closure state of `createSignalBus` (src/src/bus.ts): the `typeHandlers`
map (insertion-ordered, as a JS `Map`), the `anyHandlers` array, the
`middlewareStack` array and the three counters. -/
structure BusState where
  typeHandlers : List (String × List HandlerId)
  anyHandlers : List HandlerId
  middlewareStack : List Mw
  emittedCount : ℕ
  handledCount : ℕ
  errorCount : ℕ
  deriving DecidableEq, Repr

/-- State right after `createSignalBus(options)`. -/
def BusState.init : BusState :=
  { typeHandlers := [], anyHandlers := [], middlewareStack := [],
    emittedCount := 0, handledCount := 0, errorCount := 0 }

/-- `typeHandlers.get(t)` on the insertion-ordered map. -/
def mapGet (m : List (String × List HandlerId)) (t : String) : Option (List HandlerId) :=
  match m with
  | [] => none
  | (k, v) :: rest => if k = t then some v else mapGet rest t

/-- The body of `on`: create the entry on first use, then push the handler. -/
def mapPush (m : List (String × List HandlerId)) (t : String) (h : HandlerId) :
    List (String × List HandlerId) :=
  match m with
  | [] => [(t, [h])]
  | (k, v) :: rest => if k = t then (k, v ++ [h]) :: rest else (k, v) :: mapPush rest t h

/-- `indexOf` + `splice(idx, 1)`: remove the first occurrence, if any. -/
def eraseFirst (l : List HandlerId) (h : HandlerId) : List HandlerId :=
  match l with
  | [] => []
  | x :: xs => if x = h then xs else x :: eraseFirst xs h

/-- Apply `eraseFirst` to the entry of one type. -/
def mapErase (m : List (String × List HandlerId)) (t : String) (h : HandlerId) :
    List (String × List HandlerId) :=
  match m with
  | [] => []
  | (k, v) :: rest =>
    if k = t then (k, eraseFirst v h) :: rest else (k, v) :: mapErase rest t h

/-- `on(type, handler)`: registers the typed handler. -/
def onTyped (t : String) (h : HandlerId) (b : BusState) : BusState :=
  { b with typeHandlers := mapPush b.typeHandlers t h }

/-- The unsubscribe closure returned by `on(type, handler)`, invoked while
the captured entry list is still the live one (no interleaved `clear`). -/
def unsubTyped (t : String) (h : HandlerId) (b : BusState) : BusState :=
  { b with typeHandlers := mapErase b.typeHandlers t h }

/-- `onAny(handler)`: registers the any-handler. -/
def onAny (h : HandlerId) (b : BusState) : BusState :=
  { b with anyHandlers := b.anyHandlers ++ [h] }

/-- The unsubscribe closure returned by `onAny(handler)`. -/
def unsubAny (h : HandlerId) (b : BusState) : BusState :=
  { b with anyHandlers := eraseFirst b.anyHandlers h }

/-- `use(middleware)`. -/
def use (mw : Mw) (b : BusState) : BusState :=
  { b with middlewareStack := b.middlewareStack ++ [mw] }

/-- `clear()`: empties the tables, keeping the counters. -/
def clear (b : BusState) : BusState :=
  { b with typeHandlers := [], anyHandlers := [], middlewareStack := [] }

/-- `stats()` of the bus. -/
def stats (b : BusState) : BusStats :=
  { emitted := b.emittedCount, handled := b.handledCount, errors := b.errorCount,
    handlers := (b.typeHandlers.map (fun p => p.2.length)).sum,
    anyHandlers := b.anyHandlers.length, middleware := b.middlewareStack.length }

/-- Observable events during one dispatch: middleware entry and exit, and
each handler invocation (`threw` also records that `onError` was called). -/
inductive Ev where
  | mwPre (i : ℕ)
  | mwPost (i : ℕ)
  | typedCall (t : String) (h : HandlerId) (threw : Bool)
  | anyCall (i : ℕ) (h : HandlerId) (threw : Bool)
  deriving DecidableEq, Repr

/-- The typed-handler loop of `runHandlers`: each handler executes through
the default sequential executor; a resolution bumps `handled`, a rejection
is caught, bumps `errors` and reports through `onError` — iteration goes on. -/
def runTyped (hβ : HB) (t : String) : List HandlerId → BusState → BusState × List Ev
  | [], b => (b, [])
  | h :: rest, b =>
    let threw := hβ h
    let b1 :=
      if threw then { b with errorCount := b.errorCount + 1 }
      else { b with handledCount := b.handledCount + 1 }
    let r := runTyped hβ t rest b1
    (r.1, .typedCall t h threw :: r.2)

/-- The any-handler loop of `runHandlers`, with its running index label. -/
def runAny (hβ : HB) : ℕ → List HandlerId → BusState → BusState × List Ev
  | _, [], b => (b, [])
  | i, h :: rest, b =>
    let threw := hβ h
    let b1 :=
      if threw then { b with errorCount := b.errorCount + 1 }
      else { b with handledCount := b.handledCount + 1 }
    let r := runAny hβ (i + 1) rest b1
    (r.1, .anyCall i h threw :: r.2)

/-- The terminal `runHandlers` closure: typed handlers for the signal's
type first, then the any-handlers. -/
def runHandlers (hβ : HB) (sg : Signal) (b : BusState) : BusState × List Ev :=
  let typed := (mapGet b.typeHandlers sg.type).getD []
  let r1 := runTyped hβ sg.type typed b
  let r2 := runAny hβ 0 b.anyHandlers r1.1
  (r2.1, r1.2 ++ r2.2)

/-- Execution of the middleware chain built by `processSignal` (middlewares
folded from last to first around `runHandlers`): middleware `i` runs its
pre-`next` part, then — unless it throws or skips `next` — the rest of the
chain, then its post-`next` part. A middleware throw is not caught by the
bus: the error (the returned flag) propagates and the post-parts of the
outer middlewares never run. -/
def chainExec (hβ : HB) (sg : Signal) :
    List Mw → ℕ → BusState → BusState × List Ev × Bool
  | [], _, b =>
    let r := runHandlers hβ sg b
    (r.1, r.2, false)
  | mw :: rest, i, b =>
    if mw.fails then (b, [.mwPre i], true)
    else if mw.callsNext then
      let r := chainExec hβ sg rest (i + 1) b
      if r.2.2 then (r.1, .mwPre i :: r.2.1, true)
      else (r.1, .mwPre i :: r.2.1 ++ [.mwPost i], false)
    else (b, [.mwPre i, .mwPost i], false)

/-- `processSignal`, the single subscriber the bus installs on the transport. -/
def processSignal (hβ : HB) (sg : Signal) (b : BusState) : BusState × List Ev × Bool :=
  chainExec hβ sg b.middlewareStack 0 b

/-- Rejection reasons of `emit`. -/
inductive EmitErr where
  | saveFailed
  | transportFailed
  | middlewareFailed
  | markAckedFailed
  deriving DecidableEq, Repr

/-- `emit(signal)`: bump `emitted`, then `store.save`, then `transport.emit`
— which with the default in-memory transport delivers inline to
`processSignal` — then `store.markAcked`. `saveOk`/`markOk` are the store's
outcomes; `transportOk = false` models a transport whose own `emit` throws
before delivering. Any of those errors, like a middleware error surfacing
through the transport, rejects `emit`; handler errors never do. -/
def emit (hβ : HB) (saveOk transportOk markOk : Bool) (sg : Signal) (b : BusState) :
    BusState × List Ev × Option EmitErr :=
  let b1 := { b with emittedCount := b.emittedCount + 1 }
  if saveOk = false then (b1, [], some .saveFailed)
  else if transportOk = false then (b1, [], some .transportFailed)
  else
    let r := processSignal hβ sg b1
    if r.2.2 then (r.1, r.2.1, some .middlewareFailed)
    else if markOk = false then (r.1, r.2.1, some .markAckedFailed)
    else (r.1, r.2.1, none)

/-- Store/transport calls observable during `replay`. -/
inductive StoreEv where
  | save (sg : Signal)
  | transportEmit (sg : Signal)
  | markAcked (sid : String)
  deriving DecidableEq, Repr

/-- The loop of `replay()`: for each unacked signal, `transport.emit` then
`store.markAcked(signal.id)` — never `store.save`. -/
def replayLog : List Signal → List StoreEv
  | [] => []
  | sg :: rest => .transportEmit sg :: .markAcked sg.id :: replayLog rest

/-- `replay()`: fetches `store.getUnacked()`, runs the loop, returns the count. -/
def replay (unacked : List Signal) : List StoreEv × ℕ :=
  (replayLog unacked, unacked.length)

/-- The signals republished through the transport, in log order. -/
def emittedOf : List StoreEv → List Signal
  | [] => []
  | .transportEmit sg :: rest => sg :: emittedOf rest
  | _ :: rest => emittedOf rest

/-- The signal ids acknowledged, in log order. -/
def ackedOf : List StoreEv → List String
  | [] => []
  | .markAcked sid :: rest => sid :: ackedOf rest
  | _ :: rest => ackedOf rest

/-- The handler-call events the typed loop produces, in registration order. -/
def typedEvList (hβ : HB) (t : String) (hs : List HandlerId) : List Ev :=
  hs.map (fun h => Ev.typedCall t h (hβ h))

/-- The handler-call events the any loop produces, in registration order. -/
def anyEvList (hβ : HB) : ℕ → List HandlerId → List Ev
  | _, [] => []
  | i, h :: rest => Ev.anyCall i h (hβ h) :: anyEvList hβ (i + 1) rest

/-- Number of registrations of handler `g` for type `t`. -/
def typedRegs (b : BusState) (t : String) (g : HandlerId) : ℕ :=
  ((mapGet b.typeHandlers t).getD []).count g

/-- Number of any-handler registrations of handler `g`. -/
def anyRegs (b : BusState) (g : HandlerId) : ℕ :=
  b.anyHandlers.count g

end Bus

namespace Bus

theorem eraseFirst_count_self (l : List HandlerId) (h : HandlerId) :
    (eraseFirst l h).count h = l.count h - 1 := by
  induction l with
  | nil => simp [eraseFirst]
  | cons x xs ih =>
    by_cases hx : x = h
    · subst hx
      simp [eraseFirst, List.count_cons]
    · simp [eraseFirst, hx, List.count_cons, ih, Ne.symm hx]

theorem eraseFirst_count_ne (l : List HandlerId) (h g : HandlerId) (hg : g ≠ h) :
    (eraseFirst l h).count g = l.count g := by
  induction l with
  | nil => simp [eraseFirst]
  | cons x xs ih =>
    by_cases hx : x = h
    · subst hx
      simp [eraseFirst, List.count_cons, hg]
    · simp [eraseFirst, hx, List.count_cons, ih]

theorem eraseFirst_of_not_mem (l : List HandlerId) (h : HandlerId) (hm : h ∉ l) :
    eraseFirst l h = l := by
  induction l with
  | nil => rfl
  | cons x xs ih =>
    simp only [List.mem_cons, not_or] at hm
    simp [eraseFirst, Ne.symm (hm.1), ih hm.2]

theorem eraseFirst_idem_of_count_le_one (l : List HandlerId) (h : HandlerId)
    (hc : l.count h ≤ 1) : eraseFirst (eraseFirst l h) h = eraseFirst l h := by
  apply eraseFirst_of_not_mem
  intro hm
  have := List.count_pos_iff.mpr hm
  have := eraseFirst_count_self l h
  omega

theorem mapGet_mapErase_self (m : List (String × List HandlerId)) (t : String)
    (h : HandlerId) :
    mapGet (mapErase m t h) t = (mapGet m t).map (fun v => eraseFirst v h) := by
  induction m with
  | nil => rfl
  | cons p rest ih =>
    by_cases hk : p.1 = t
    · simp [mapErase, mapGet, hk]
    · simp [mapErase, mapGet, hk, ih]

theorem mapErase_idem_entry (m : List (String × List HandlerId)) (t : String)
    (h : HandlerId)
    (hc : ((mapGet m t).getD []).count h ≤ 1) :
    mapErase (mapErase m t h) t h = mapErase m t h := by
  induction m with
  | nil => rfl
  | cons p rest ih =>
    by_cases hk : p.1 = t
    · obtain ⟨k, v⟩ := p
      simp only at hk
      subst hk
      simp only [mapGet, if_pos rfl, Option.getD_some] at hc
      simp [mapErase, eraseFirst_idem_of_count_le_one v h hc]
    · obtain ⟨k, v⟩ := p
      simp only at hk
      simp only [mapGet, if_neg hk] at hc
      simp [mapErase, hk, ih hc]

/-- C2 counterexample: a handler registered twice for the same type, with the
unsubscribe returned by the first registration called twice — starting from
two registrations, the second call removes the remaining entry as well, so
exactly one registration is NOT what remains removed-from: both are gone. -/
theorem c2_unsubscribe_counterexample :
    Bus.typedRegs (Bus.onTyped "x" 7 (Bus.onTyped "x" 7 Bus.BusState.init)) "x" 7 = 2 ∧
    Bus.typedRegs (Bus.unsubTyped "x" 7 (Bus.unsubTyped "x" 7
      (Bus.onTyped "x" 7 (Bus.onTyped "x" 7 Bus.BusState.init)))) "x" 7 = 0 ∧
    ¬ Bus.typedRegs (Bus.unsubTyped "x" 7 (Bus.unsubTyped "x" 7
      (Bus.onTyped "x" 7 (Bus.onTyped "x" 7 Bus.BusState.init)))) "x" 7 = 1 := by
  refine ⟨by decide, by decide, by decide⟩

/-- C2 (amended): each call of the unsubscribe returned by `on`/`onAny`
removes the first entry matching the handler (if any), leaving registrations
of every other handler untouched; when the handler is registered at most
once, calling the unsubscribe twice equals calling it once (idempotence);
but when the handler is registered several times, a second call removes the
next matching entry too, so two calls remove two registrations. -/
theorem c2_unsubscribe (b : Bus.BusState) (t : String) (h g : Bus.HandlerId) :
    (Bus.typedRegs (Bus.unsubTyped t h b) t h = Bus.typedRegs b t h - 1) ∧
    (g ≠ h → Bus.typedRegs (Bus.unsubTyped t h b) t g = Bus.typedRegs b t g) ∧
    (Bus.typedRegs b t h ≤ 1 →
      Bus.unsubTyped t h (Bus.unsubTyped t h b) = Bus.unsubTyped t h b) ∧
    (Bus.typedRegs (Bus.unsubTyped t h (Bus.unsubTyped t h b)) t h =
      Bus.typedRegs b t h - 2) ∧
    (Bus.anyRegs (Bus.unsubAny h b) h = Bus.anyRegs b h - 1) ∧
    (g ≠ h → Bus.anyRegs (Bus.unsubAny h b) g = Bus.anyRegs b g) ∧
    (Bus.anyRegs b h ≤ 1 →
      Bus.unsubAny h (Bus.unsubAny h b) = Bus.unsubAny h b) ∧
    (Bus.anyRegs (Bus.unsubAny h (Bus.unsubAny h b)) h = Bus.anyRegs b h - 2) := by
  have hget := Bus.mapGet_mapErase_self b.typeHandlers t h
  have hget2 := Bus.mapGet_mapErase_self (Bus.mapErase b.typeHandlers t h) t h
  constructor
  · simp only [Bus.typedRegs, Bus.unsubTyped, hget]
    cases hm : Bus.mapGet b.typeHandlers t with
    | none => simp
    | some v => simp [Bus.eraseFirst_count_self]
  constructor
  · intro hgh
    simp only [Bus.typedRegs, Bus.unsubTyped, hget]
    cases hm : Bus.mapGet b.typeHandlers t with
    | none => simp
    | some v => simp [Bus.eraseFirst_count_ne v h g hgh]
  constructor
  · intro hc
    have hmm := Bus.mapErase_idem_entry b.typeHandlers t h (by simpa [Bus.typedRegs] using hc)
    simp [Bus.unsubTyped, hmm]
  constructor
  · simp only [Bus.typedRegs, Bus.unsubTyped, hget2, hget]
    cases hm : Bus.mapGet b.typeHandlers t with
    | none => simp
    | some v => simp [Bus.eraseFirst_count_self]; omega
  constructor
  · simp [Bus.anyRegs, Bus.unsubAny, Bus.eraseFirst_count_self]
  constructor
  · intro hgh
    simp [Bus.anyRegs, Bus.unsubAny, Bus.eraseFirst_count_ne _ h g hgh]
  constructor
  · intro hc
    simp only [Bus.unsubAny]
    simp only [Bus.anyRegs] at hc
    simp [Bus.eraseFirst_idem_of_count_le_one b.anyHandlers h hc]
  · have h1 := Bus.eraseFirst_count_self b.anyHandlers h
    have h2 := Bus.eraseFirst_count_self (Bus.eraseFirst b.anyHandlers h) h
    simp only [Bus.anyRegs, Bus.unsubAny]
    omega

/-- C2 witness: the amended statement evaluated on a concrete bus where
handler 7 is registered once for "x" and once as an any-handler. -/
theorem c2_unsubscribe_witness :
    ((9 : Bus.HandlerId) ≠ 7) ∧
    (Bus.typedRegs (Bus.onAny 7 (Bus.onTyped "x" 7 Bus.BusState.init)) "x" 7 ≤ 1) ∧
    Bus.unsubTyped "x" 7 (Bus.unsubTyped "x" 7 (Bus.onAny 7 (Bus.onTyped "x" 7 Bus.BusState.init))) =
      Bus.unsubTyped "x" 7 (Bus.onAny 7 (Bus.onTyped "x" 7 Bus.BusState.init)) := by
  refine ⟨by decide, by decide, ?_⟩
  exact (c2_unsubscribe (Bus.onAny 7 (Bus.onTyped "x" 7 Bus.BusState.init)) "x" 7 9).2.2.1
    (by decide)

/-- C7: `replay()` republishes exactly the signals of `store.getUnacked()`,
in that order, through the transport; it never calls `store.save`; each
signal's ack directly follows its republication (log positions `2k` and
`2k + 1`); and the returned count is the length of the unacked list. -/
theorem c7_replay (l : List Bus.Signal) :
    (Bus.replay l).2 = l.length ∧
    Bus.emittedOf (Bus.replay l).1 = l ∧
    Bus.ackedOf (Bus.replay l).1 = l.map (fun sg => sg.id) ∧
    (∀ sg, Bus.StoreEv.save sg ∉ (Bus.replay l).1) ∧
    (∀ k sg, l.get? k = some sg →
      (Bus.replay l).1.get? (2 * k) = some (.transportEmit sg) ∧
      (Bus.replay l).1.get? (2 * k + 1) = some (.markAcked sg.id)) := by
  refine ⟨rfl, ?_, ?_, ?_, ?_⟩
  · induction l with
    | nil => rfl
    | cons sg rest ih => simpa [Bus.replay, Bus.replayLog, Bus.emittedOf] using ih
  · induction l with
    | nil => rfl
    | cons sg rest ih => simpa [Bus.replay, Bus.replayLog, Bus.ackedOf] using ih
  · intro sg
    induction l with
    | nil => simp [Bus.replay, Bus.replayLog]
    | cons x rest ih => simpa [Bus.replay, Bus.replayLog] using ih
  · intro k
    induction l generalizing k with
    | nil => intro sg hsg; simp at hsg
    | cons x rest ih =>
      intro sg hsg
      cases k with
      | zero =>
        simp only [List.get?] at hsg
        cases hsg
        exact ⟨rfl, rfl⟩
      | succ k =>
        simp only [List.get?] at hsg
        have := ih k sg hsg
        have h2 : 2 * (k + 1) = 2 * k + 1 + 1 := by ring
        simpa [Bus.replay, Bus.replayLog, h2] using this

/-- C7 witness: replay of a concrete two-signal unacked list. -/
theorem c7_replay_witness :
    ([{ type := "a", ts := 1, id := "i1", payload := 0 },
      { type := "b", ts := 2, id := "i2", payload := 0 }] : List Bus.Signal).get? 1 =
        some { type := "b", ts := 2, id := "i2", payload := 0 } ∧
    (Bus.replay [{ type := "a", ts := 1, id := "i1", payload := 0 },
      { type := "b", ts := 2, id := "i2", payload := 0 }]).1.get? 2 =
        some (.transportEmit { type := "b", ts := 2, id := "i2", payload := 0 }) := by
  refine ⟨by decide, ?_⟩
  exact ((c7_replay [{ type := "a", ts := 1, id := "i1", payload := 0 },
    { type := "b", ts := 2, id := "i2", payload := 0 }]).2.2.2.2 1
    { type := "b", ts := 2, id := "i2", payload := 0 } (by decide)).1

/-- C9: while running with a handler, each bridge `push` emits exactly one
tick with reason "bridge", timestamp `now` and the current sequence number,
and bumps `seq` by one; while not running, `push` changes nothing and emits
nothing; a synchronous handler throw is caught and counted in `errors`
(push is a total function — the error never propagates), and the tick is
still the one already handed to the handler. -/
theorem c9_bridge_push (s : BridgeClock.BCState) (now : ℚ) (o : BridgeClock.PushOutcome) :
    (s.running = true → s.handlerPresent = true →
      (BridgeClock.push now o s).2 =
          some { ts := now, seq := s.seq, reason := .bridge, drift := none } ∧
        (BridgeClock.push now o s).1.seq = s.seq + 1 ∧
        (BridgeClock.push now o s).1.tickCount = s.tickCount + 1) ∧
    (s.running = false → BridgeClock.push now o s = (s, none)) ∧
    (∀ e, s.running = true → s.handlerPresent = true →
      (BridgeClock.push now (.throwsSync e) s).1.errors = s.errors + 1 ∧
      (BridgeClock.push now (.throwsSync e) s).2 =
        some { ts := now, seq := s.seq, reason := .bridge, drift := none }) := by
  refine ⟨?_, ?_, ?_⟩
  · intro hr hh
    cases o <;> simp [BridgeClock.push, hr, hh]
  · intro hr
    simp [BridgeClock.push, hr]
  · intro e hr hh
    simp [BridgeClock.push, hr, hh]

theorem runTyped_spec (hβ : HB) (t : String) (hs : List HandlerId) (b : BusState) :
    runTyped hβ t hs b =
      ({ b with handledCount := b.handledCount + hs.countP (fun h => !hβ h),
                errorCount := b.errorCount + hs.countP (fun h => hβ h) },
       typedEvList hβ t hs) := by
  induction hs generalizing b with
  | nil => simp [runTyped, typedEvList]
  | cons h rest ih =>
    by_cases hth : hβ h = true
    · simp only [runTyped, hth, if_pos, typedEvList, List.map_cons, List.countP_cons, ih]
      simp [hth]
      omega
    · simp only [runTyped, typedEvList, List.map_cons, List.countP_cons, ih]
      simp [hth]
      omega

theorem runAny_spec (hβ : HB) (i : ℕ) (hs : List HandlerId) (b : BusState) :
    runAny hβ i hs b =
      ({ b with handledCount := b.handledCount + hs.countP (fun h => !hβ h),
                errorCount := b.errorCount + hs.countP (fun h => hβ h) },
       anyEvList hβ i hs) := by
  induction hs generalizing i b with
  | nil => simp [runAny, anyEvList]
  | cons h rest ih =>
    by_cases hth : hβ h = true
    · simp only [runAny, anyEvList, List.countP_cons, ih]
      simp [hth]
      omega
    · simp only [runAny, anyEvList, List.countP_cons, ih]
      simp [hth]
      omega

theorem runHandlers_spec (hβ : HB) (sg : Signal) (b : BusState) :
    runHandlers hβ sg b =
      ({ b with
          handledCount := b.handledCount +
            (((mapGet b.typeHandlers sg.type).getD []).countP (fun h => !hβ h) +
              b.anyHandlers.countP (fun h => !hβ h)),
          errorCount := b.errorCount +
            (((mapGet b.typeHandlers sg.type).getD []).countP (fun h => hβ h) +
              b.anyHandlers.countP (fun h => hβ h)) },
       typedEvList hβ sg.type ((mapGet b.typeHandlers sg.type).getD []) ++
         anyEvList hβ 0 b.anyHandlers) := by
  simp only [runHandlers, runTyped_spec, runAny_spec]
  simp
  omega

theorem chainExec_ok (hβ : HB) (sg : Signal) (l : List Mw) (i : ℕ) (b : BusState)
    (hl : ∀ mw ∈ l, mw.fails = false) :
    (chainExec hβ sg l i b).2.2 = false := by
  induction l generalizing i b with
  | nil => simp [chainExec]
  | cons mw rest ih =>
    have h1 := hl mw (by simp)
    have h2 : ∀ m ∈ rest, m.fails = false := fun m hm => hl m (by simp [hm])
    by_cases hcn : mw.callsNext = true
    · simp [chainExec, h1, hcn, ih i.succ b h2]
    · simp [chainExec, h1, hcn]

theorem chainExec_fail (hβ : HB) (sg : Signal) (pre : List Mw) (mw : Mw)
    (post : List Mw) (i : ℕ) (b : BusState)
    (hpre : ∀ m ∈ pre, m.fails = false ∧ m.callsNext = true) (hf : mw.fails = true) :
    (chainExec hβ sg (pre ++ mw :: post) i b).2.2 = true := by
  induction pre generalizing i b with
  | nil => simp [chainExec, hf]
  | cons m rest ih =>
    have h1 := hpre m (by simp)
    have h2 : ∀ x ∈ rest, x.fails = false ∧ x.callsNext = true :=
      fun x hx => hpre x (by simp [hx])
    simp [chainExec, h1.1, h1.2, ih i.succ b h2]

/-- C3: with the default transport, store and executor (and no middleware
registered), one `emit` runs exactly the typed handlers for the signal's
type, in registration order, then the any-handlers in registration order;
it resolves, `emitted` grows by 1, `handled` grows by the number of
registered handlers minus those that threw, and `errors` grows by the number
of handlers that threw. -/
theorem c3_emit_order_stats (b : BusState) (hβ : HB) (sg : Signal)
    (hmw : b.middlewareStack = []) :
    (emit hβ true true true sg b).2.2 = none ∧
    (emit hβ true true true sg b).2.1 =
      typedEvList hβ sg.type ((mapGet b.typeHandlers sg.type).getD []) ++
        anyEvList hβ 0 b.anyHandlers ∧
    (emit hβ true true true sg b).1.emittedCount = b.emittedCount + 1 ∧
    (emit hβ true true true sg b).1.handledCount =
      b.handledCount +
        ((((mapGet b.typeHandlers sg.type).getD []).length + b.anyHandlers.length) -
          (((mapGet b.typeHandlers sg.type).getD []).countP (fun h => hβ h) +
            b.anyHandlers.countP (fun h => hβ h))) ∧
    (emit hβ true true true sg b).1.errorCount =
      b.errorCount +
        (((mapGet b.typeHandlers sg.type).getD []).countP (fun h => hβ h) +
          b.anyHandlers.countP (fun h => hβ h)) := by
  have hlen1 := List.length_eq_countP_add_countP (fun h => hβ h)
    ((mapGet b.typeHandlers sg.type).getD [])
  have hlen2 := List.length_eq_countP_add_countP (fun h => hβ h) b.anyHandlers
  simp only [emit, processSignal, hmw, chainExec, runHandlers_spec]
  simp at hlen1 hlen2 ⊢
  omega

/-- C3 witness: typed handlers 1 (ok) and 2 (throws) plus any-handler 3 on a
fresh bus. -/
theorem c3_emit_order_stats_witness :
    (emit (fun h => h == 2) true true true { type := "x", ts := 1, id := "a", payload := 0 }
      (onAny 3 (onTyped "x" 2 (onTyped "x" 1 BusState.init)))).2.2 = none := by
  exact (c3_emit_order_stats (onAny 3 (onTyped "x" 2 (onTyped "x" 1 BusState.init)))
    (fun h => h == 2) { type := "x", ts := 1, id := "a", payload := 0 } rfl).1

/-- C4: handler errors are caught inside the dispatch loop — with no failing
middleware, `emit` resolves no matter which handlers throw, and with no
middleware each throwing handler is counted in `errors` and its `onError`
report appears in the trace; by contrast a `store.save` error, a transport
error, a middleware error, or a `store.markAcked` error rejects `emit`. -/
theorem c4_emit_error_policy (b : BusState) (hβ : HB) (sg : Signal) :
    ((∀ mw ∈ b.middlewareStack, mw.fails = false) →
      (emit hβ true true true sg b).2.2 = none) ∧
    (b.middlewareStack = [] →
      (emit hβ true true true sg b).1.errorCount =
        b.errorCount +
          (((mapGet b.typeHandlers sg.type).getD []).countP (fun h => hβ h) +
            b.anyHandlers.countP (fun h => hβ h)) ∧
      (emit hβ true true true sg b).2.1 =
        typedEvList hβ sg.type ((mapGet b.typeHandlers sg.type).getD []) ++
          anyEvList hβ 0 b.anyHandlers) ∧
    (∀ tOk mOk, (emit hβ false tOk mOk sg b).2.2 = some .saveFailed) ∧
    (∀ mOk, (emit hβ true false mOk sg b).2.2 = some .transportFailed) ∧
    (∀ pre mw post, b.middlewareStack = pre ++ mw :: post →
      (∀ m ∈ pre, m.fails = false ∧ m.callsNext = true) → mw.fails = true →
      (emit hβ true true true sg b).2.2 = some .middlewareFailed) ∧
    ((∀ mw ∈ b.middlewareStack, mw.fails = false) →
      (emit hβ true true false sg b).2.2 = some .markAckedFailed) := by
  refine ⟨?_, ?_, ?_, ?_, ?_, ?_⟩
  · intro hl
    simp only [emit, processSignal]
    simp [chainExec_ok hβ sg b.middlewareStack 0 _ hl]
  · intro hmw
    have h := c3_emit_order_stats b hβ sg hmw
    exact ⟨h.2.2.2.2, h.2.1⟩
  · intro tOk mOk
    simp [emit]
  · intro mOk
    simp [emit]
  · intro pre mw post hsplit hpre hf
    simp only [emit, processSignal, hsplit]
    simp [chainExec_fail hβ sg pre mw post 0 _ hpre hf]
  · intro hl
    simp only [emit, processSignal]
    simp [chainExec_ok hβ sg b.middlewareStack 0 _ hl]

/-- C4 witness: a concrete bus whose second middleware fails behind a
next-calling first one. -/
theorem c4_emit_error_policy_witness :
    (emit (fun _ => false) true true true { type := "x", ts := 1, id := "a", payload := 0 }
      (use { fails := true, callsNext := true }
        (use { fails := false, callsNext := true } BusState.init))).2.2 =
      some .middlewareFailed := by
  exact (c4_emit_error_policy
    (use { fails := true, callsNext := true }
      (use { fails := false, callsNext := true } BusState.init))
    (fun _ => false) { type := "x", ts := 1, id := "a", payload := 0 }).2.2.2.2.1
    [{ fails := false, callsNext := true }] { fails := true, callsNext := true } []
    rfl (by intro m hm; simp at hm; simp [hm]) rfl

/-- C5: with middlewares M1, M2 registered in that order, when both call
`next` the dispatch trace is M1-pre, M2-pre, the handlers, M2-post, M1-post
(onion), and `emit` resolves; when M1 returns without calling `next`, no
downstream middleware event and no handler call appears (stats untouched),
yet `emit` still resolves. -/
theorem c5_middleware_onion (b : BusState) (hβ : HB) (sg : Signal) (m1 m2 : Mw)
    (hmw : b.middlewareStack = [m1, m2]) :
    (m1.fails = false → m2.fails = false → m1.callsNext = true → m2.callsNext = true →
      (emit hβ true true true sg b).2.2 = none ∧
      (emit hβ true true true sg b).2.1 =
        [Ev.mwPre 0, Ev.mwPre 1] ++
          (typedEvList hβ sg.type ((mapGet b.typeHandlers sg.type).getD []) ++
            anyEvList hβ 0 b.anyHandlers) ++ [Ev.mwPost 1, Ev.mwPost 0]) ∧
    (m1.fails = false → m1.callsNext = false →
      (emit hβ true true true sg b).2.2 = none ∧
      (emit hβ true true true sg b).2.1 = [Ev.mwPre 0, Ev.mwPost 0] ∧
      (emit hβ true true true sg b).1.handledCount = b.handledCount ∧
      (emit hβ true true true sg b).1.errorCount = b.errorCount) := by
  constructor
  · intro hf1 hf2 hc1 hc2
    simp only [emit, processSignal, hmw, chainExec, runHandlers_spec, hf1, hf2, hc1, hc2]
    simp
  · intro hf1 hc1
    simp only [emit, processSignal, hmw, chainExec, hf1, hc1]
    simp

/-- C5 witness: two next-calling middlewares around one typed handler. -/
theorem c5_middleware_onion_witness :
    (emit (fun _ => false) true true true { type := "x", ts := 1, id := "a", payload := 0 }
      (onTyped "x" 1 (use { fails := false, callsNext := true }
        (use { fails := false, callsNext := true } BusState.init)))).2.1 =
      [Ev.mwPre 0, Ev.mwPre 1] ++
        (typedEvList (fun _ => false) "x" [1] ++ anyEvList (fun _ => false) 0 []) ++
        [Ev.mwPost 1, Ev.mwPost 0] := by
  exact ((c5_middleware_onion
    (onTyped "x" 1 (use { fails := false, callsNext := true }
      (use { fails := false, callsNext := true } BusState.init)))
    (fun _ => false) { type := "x", ts := 1, id := "a", payload := 0 }
    { fails := false, callsNext := true } { fails := false, callsNext := true }
    rfl).1 rfl rfl rfl rfl).2

/-- C9 witness: a concrete running bridge clock takes a throwing push. -/
theorem c9_bridge_push_witness :
    ((BridgeClock.start BridgeClock.BCState.init).1.running = true) ∧
    (BridgeClock.push 5 (.throwsSync 2) (BridgeClock.start BridgeClock.BCState.init).1).1.errors =
      (BridgeClock.start BridgeClock.BCState.init).1.errors + 1 := by
  refine ⟨by decide, ?_⟩
  exact ((c9_bridge_push (BridgeClock.start BridgeClock.BCState.init).1 5
    (.throwsSync 2)).2.2 2 (by decide) (by decide)).1

end Bus

namespace TestClock

theorem fireSingleTick_spec (η : HandlerBehavior) (s : TCState) :
    (fireSingleTick η s).1.seq = s.seq + (fireSingleTick η s).2.1.toList.length ∧
    (fireSingleTick η s).2.1.toList.map Tick.seq =
      List.range' s.seq (fireSingleTick η s).2.1.toList.length ∧
    (fireSingleTick η s).1.handlerPresent = s.handlerPresent ∧
    (fireSingleTick η s).1.running = s.running ∧
    (fireSingleTick η s).1.accumulator = s.accumulator ∧
    (fireSingleTick η s).1.virtualTime = s.virtualTime := by
  by_cases hh : s.handlerPresent = true
  · by_cases hth :
      (η { ts := s.virtualTime, seq := s.seq, reason := .manual, drift := none }).throws = true <;>
      simp [fireSingleTick, hh, hth, List.range'_succ]
  · have hh2 : s.handlerPresent = false := by simpa using hh
    simp [fireSingleTick, hh2]

theorem fireSingleTick_noThrow (η : HandlerBehavior) (s : TCState)
    (hh : s.handlerPresent = true) (hη : ∀ t, (η t).throws = false) :
    (fireSingleTick η s).2.1.toList.length = 1 ∧
    (fireSingleTick η s).2.2 = false ∧
    (fireSingleTick η s).1.virtualTime = s.virtualTime := by
  have hth := hη { ts := s.virtualTime, seq := s.seq, reason := .manual, drift := none }
  simp [fireSingleTick, hh, hth]

theorem tickLoop_seq (I : ℚ) (η : HandlerBehavior) (n : ℕ) (s : TCState) :
    (tickLoop I η n s).1.seq = s.seq + (tickLoop I η n s).2.1.length ∧
    (tickLoop I η n s).2.1.map Tick.seq =
      List.range' s.seq (tickLoop I η n s).2.1.length ∧
    (tickLoop I η n s).1.handlerPresent = s.handlerPresent ∧
    (tickLoop I η n s).1.running = s.running ∧
    (tickLoop I η n s).1.accumulator = s.accumulator := by
  induction n generalizing s with
  | zero => simp [tickLoop]
  | succ n ih =>
    have hspec := fireSingleTick_spec η { s with virtualTime := s.virtualTime + I }
    rcases hfs : fireSingleTick η { s with virtualTime := s.virtualTime + I } with ⟨sf, topt, thr⟩
    rw [hfs] at hspec
    simp only at hspec
    cases thr with
    | true =>
      have hred : tickLoop I η (n + 1) s = (sf, topt.toList, true) := by
        simp [tickLoop, hfs]
      rw [hred]
      exact ⟨hspec.1, hspec.2.1, hspec.2.2.1, hspec.2.2.2.1, hspec.2.2.2.2.1⟩
    | false =>
      have hred : tickLoop I η (n + 1) s =
          ((tickLoop I η n sf).1, topt.toList ++ (tickLoop I η n sf).2.1,
            (tickLoop I η n sf).2.2) := by
        simp [tickLoop, hfs]
      have hrest := ih sf
      rw [hred]
      refine ⟨?_, ?_, ?_, ?_, ?_⟩
      · simp only [List.length_append]
        have h1 := hspec.1
        have h2 := hrest.1
        omega
      · simp only [List.map_append, List.length_append, hspec.2.1, hrest.2.1]
        have hsf : sf.seq = s.seq + topt.toList.length := hspec.1
        rw [hsf, List.range'_append_1]
        congr 1
        omega
      · rw [hrest.2.2.1]
        exact hspec.2.2.1
      · rw [hrest.2.2.2.1]
        exact hspec.2.2.2.1
      · rw [hrest.2.2.2.2]
        exact hspec.2.2.2.2.1

theorem tickLoop_noThrow (I : ℚ) (η : HandlerBehavior) (n : ℕ) (s : TCState)
    (hh : s.handlerPresent = true) (hη : ∀ t, (η t).throws = false) :
    (tickLoop I η n s).2.1.length = n ∧
    (tickLoop I η n s).1.virtualTime = s.virtualTime + n * I ∧
    (tickLoop I η n s).2.2 = false := by
  induction n generalizing s with
  | zero => simp [tickLoop]
  | succ n ih =>
    have hh1 : ({ s with virtualTime := s.virtualTime + I } : TCState).handlerPresent = true := hh
    have hone := fireSingleTick_noThrow η { s with virtualTime := s.virtualTime + I } hh1 hη
    have hpres := fireSingleTick_spec η { s with virtualTime := s.virtualTime + I }
    rcases hfs : fireSingleTick η { s with virtualTime := s.virtualTime + I } with ⟨sf, topt, thr⟩
    rw [hfs] at hone hpres
    simp only at hone hpres
    have hthr : thr = false := hone.2.1
    subst hthr
    have hsfh : sf.handlerPresent = true := by
      have := hpres.2.2.1
      simpa [hh] using this
    have hrest := ih sf hsfh
    have hred : tickLoop I η (n + 1) s =
        ((tickLoop I η n sf).1, topt.toList ++ (tickLoop I η n sf).2.1,
          (tickLoop I η n sf).2.2) := by
      simp [tickLoop, hfs]
    rw [hred]
    refine ⟨?_, ?_, hrest.2.2⟩
    · simp only [List.length_append, hone.1, hrest.1]
      omega
    · rw [hrest.2.1]
      have hvt : sf.virtualTime = s.virtualTime + I := by simpa using hone.2.2
      rw [hvt]
      push_cast
      ring

theorem advanceBy_spec (I : ℚ) (η : HandlerBehavior) (x : ℚ) (s : TCState)
    (hI : 0 < I) (hh : s.handlerPresent = true) (hr : s.running = true)
    (hη : ∀ t, (η t).throws = false) (hacc : 0 ≤ s.accumulator) (hx : 0 ≤ x) :
    (advanceBy I η x s).2.2 = none ∧
    ((advanceBy I η x s).2.1.length : ℤ) = ⌊(s.accumulator + x) / I⌋ ∧
    (advanceBy I η x s).1.accumulator =
      (s.accumulator + x) - ((advanceBy I η x s).2.1.length : ℚ) * I ∧
    0 ≤ (advanceBy I η x s).1.accumulator ∧
    (advanceBy I η x s).1.accumulator < I ∧
    (advanceBy I η x s).1.virtualTime =
      s.virtualTime + ((advanceBy I η x s).2.1.length : ℚ) * I ∧
    (advanceBy I η x s).1.seq = s.seq + (advanceBy I η x s).2.1.length ∧
    (advanceBy I η x s).1.handlerPresent = true ∧
    (advanceBy I η x s).1.running = true := by
  have hIne : I ≠ 0 := ne_of_gt hI
  have ha0 : 0 ≤ s.accumulator + x := add_nonneg hacc hx
  have hfl : (0 : ℤ) ≤ ⌊(s.accumulator + x) / I⌋ :=
    Int.floor_nonneg.mpr (div_nonneg ha0 hI.le)
  have hcast2 : (((⌊(s.accumulator + x) / I⌋).toNat : ℕ) : ℚ) =
      ((⌊(s.accumulator + x) / I⌋ : ℤ) : ℚ) := by
    rw [← Int.cast_natCast (R := ℚ), Int.toNat_of_nonneg hfl]
  have hfrac : (s.accumulator + x) - ((⌊(s.accumulator + x) / I⌋ : ℤ) : ℚ) * I =
      I * Int.fract ((s.accumulator + x) / I) := by
    rw [Int.fract]
    field_simp
    ring
  have hfge : 0 ≤ I * Int.fract ((s.accumulator + x) / I) :=
    mul_nonneg hI.le (Int.fract_nonneg _)
  have hflt : I * Int.fract ((s.accumulator + x) / I) < I := by
    have := mul_lt_mul_of_pos_left (Int.fract_lt_one ((s.accumulator + x) / I)) hI
    simpa using this
  have hred : advanceBy I η x s =
      ((tickLoop I η (⌊(s.accumulator + x) / I⌋).toNat
          { s with accumulator := (s.accumulator + x) -
              ((⌊(s.accumulator + x) / I⌋ : ℤ) : ℚ) * I }).1,
       (tickLoop I η (⌊(s.accumulator + x) / I⌋).toNat
          { s with accumulator := (s.accumulator + x) -
              ((⌊(s.accumulator + x) / I⌋ : ℤ) : ℚ) * I }).2.1,
       if (tickLoop I η (⌊(s.accumulator + x) / I⌋).toNat
          { s with accumulator := (s.accumulator + x) -
              ((⌊(s.accumulator + x) / I⌋ : ℤ) : ℚ) * I }).2.2 then
         some .handlerError else none) := by
    simp [advanceBy, hr]
  have hs1h : ({ s with accumulator := (s.accumulator + x) -
      ((⌊(s.accumulator + x) / I⌋ : ℤ) : ℚ) * I } : TCState).handlerPresent = true := hh
  have hA := tickLoop_noThrow I η (⌊(s.accumulator + x) / I⌋).toNat
    { s with accumulator := (s.accumulator + x) -
        ((⌊(s.accumulator + x) / I⌋ : ℤ) : ℚ) * I } hs1h hη
  have hB := tickLoop_seq I η (⌊(s.accumulator + x) / I⌋).toNat
    { s with accumulator := (s.accumulator + x) -
        ((⌊(s.accumulator + x) / I⌋ : ℤ) : ℚ) * I }
  rw [hred]
  refine ⟨?_, ?_, ?_, ?_, ?_, ?_, ?_, ?_, ?_⟩
  · simp [hA.2.2]
  · rw [hA.1, Int.toNat_of_nonneg hfl]
  · rw [hB.2.2.2.2, hA.1, hcast2]
  · rw [hB.2.2.2.2]
    show 0 ≤ s.accumulator + x - ((⌊(s.accumulator + x) / I⌋ : ℤ) : ℚ) * I
    rw [hfrac]
    exact hfge
  · rw [hB.2.2.2.2]
    show s.accumulator + x - ((⌊(s.accumulator + x) / I⌋ : ℤ) : ℚ) * I < I
    rw [hfrac]
    exact hflt
  · rw [hA.2.1, hA.1]
  · rw [hB.1, hA.1]
  · rw [hB.2.2.1]
    exact hh
  · rw [hB.2.2.2.1]
    exact hr

theorem runAdvances_spec (I : ℚ) (η : HandlerBehavior) (xs : List ℚ) (s : TCState)
    (hI : 0 < I) (hh : s.handlerPresent = true) (hr : s.running = true)
    (hη : ∀ t, (η t).throws = false) (hxs : ∀ x ∈ xs, 0 ≤ x)
    (h0 : 0 ≤ s.accumulator) (h1 : s.accumulator < I) :
    (runAdvances I η xs s).1.accumulator =
      s.accumulator + xs.sum - ((runAdvances I η xs s).2.length : ℚ) * I ∧
    0 ≤ (runAdvances I η xs s).1.accumulator ∧
    (runAdvances I η xs s).1.accumulator < I ∧
    (runAdvances I η xs s).1.virtualTime =
      s.virtualTime + ((runAdvances I η xs s).2.length : ℚ) * I ∧
    (runAdvances I η xs s).1.handlerPresent = true ∧
    (runAdvances I η xs s).1.running = true := by
  induction xs generalizing s with
  | nil =>
    simp only [runAdvances, List.sum_nil, List.length_nil]
    refine ⟨by ring, h0, h1, by simp, hh, hr⟩
  | cons x rest ih =>
    have hx := hxs x (by simp)
    have hstep := advanceBy_spec I η x s hI hh hr hη h0 hx
    rcases hadv : advanceBy I η x s with ⟨s2, ticks2, err2⟩
    rw [hadv] at hstep
    simp only at hstep
    have hrest := ih s2 hstep.2.2.2.2.2.2.2.1 hstep.2.2.2.2.2.2.2.2
      (fun y hy => hxs y (by simp [hy])) hstep.2.2.2.1 hstep.2.2.2.2.1
    have hred : runAdvances I η (x :: rest) s =
        ((runAdvances I η rest s2).1, ticks2 ++ (runAdvances I η rest s2).2) := by
      simp [runAdvances, hadv]
    rw [hred]
    simp only [List.length_append, List.sum_cons]
    have hacc2 := hstep.2.2.1
    have hvt2 := hstep.2.2.2.2.2.1
    refine ⟨?_, hrest.2.1, hrest.2.2.1, ?_, hrest.2.2.2.2.1, hrest.2.2.2.2.2⟩
    · rw [hrest.1, hacc2]
      push_cast
      ring
    · rw [hrest.2.2.2.1, hvt2]
      push_cast
      ring

/-- C6: starting a test clock after `reset()` and calling
`advanceBy(x1), ..., advanceBy(xk)` with non-negative arguments and a
non-throwing handler fires exactly `floor((x1 + ... + xk) / intervalMs)`
handler invocations in total, leaves `virtualTime` (the value `now()`
returns) at that count times `intervalMs`, and carries the sub-interval
residue in the accumulator. -/
theorem c6_test_clock_advances (I : ℚ) (η : HandlerBehavior) (xs : List ℚ)
    (hI : 0 < I) (hη : ∀ t, (η t).throws = false) (hxs : ∀ x ∈ xs, 0 ≤ x) :
    (((runAdvances I η xs freshRunning).2.length : ℤ) = ⌊xs.sum / I⌋) ∧
    (runAdvances I η xs freshRunning).1.virtualTime =
      ((runAdvances I η xs freshRunning).2.length : ℚ) * I ∧
    (runAdvances I η xs freshRunning).1.accumulator =
      xs.sum - ((runAdvances I η xs freshRunning).2.length : ℚ) * I := by
  have hacc0 : freshRunning.accumulator = 0 := rfl
  have h := runAdvances_spec I η xs freshRunning hI rfl rfl hη hxs
    (by rw [hacc0]) (by rw [hacc0]; exact hI)
  obtain ⟨hacc, hge, hlt, hvt, _, _⟩ := h
  rw [hacc0] at hacc
  have hvt0 : freshRunning.virtualTime = 0 := rfl
  rw [hvt0] at hvt
  have hsum : xs.sum = ((runAdvances I η xs freshRunning).2.length : ℚ) * I +
      (runAdvances I η xs freshRunning).1.accumulator := by
    rw [hacc]
    ring
  refine ⟨?_, by simpa using hvt, by rw [hacc]; ring⟩
  symm
  rw [Int.floor_eq_iff]
  refine ⟨?_, ?_⟩
  · rw [le_div_iff₀ hI]
    push_cast
    linarith [hge, hsum]
  · rw [div_lt_iff₀ hI]
    push_cast
    have hexp : (((runAdvances I η xs freshRunning).2.length : ℚ) + 1) * I =
        ((runAdvances I η xs freshRunning).2.length : ℚ) * I + I := by ring
    linarith [hlt, hsum, hexp]

/-- C6 witness: interval 100 with advances 250 and 60 (the spec's S3 data). -/
theorem c6_test_clock_advances_witness :
    ((runAdvances 100 (fun _ => { throws := false, elapsed := 0 }) [250, 60]
        freshRunning).2.length : ℤ) = ⌊(([250, 60] : List ℚ).sum) / 100⌋ := by
  refine (c6_test_clock_advances 100 (fun _ => { throws := false, elapsed := 0 }) [250, 60]
    (by norm_num) (fun t => rfl) ?_).1
  intro x hx
  simp only [List.mem_cons, List.not_mem_nil, or_false] at hx
  rcases hx with h | h <;> subst h <;> norm_num

theorem applyOp_acc (I : ℚ) (η : HandlerBehavior) (op : TCOp) (s : TCState)
    (hI : 0 < I) (hop : op.nonneg) (h0 : 0 ≤ s.accumulator) (h1 : s.accumulator < I) :
    0 ≤ (applyOp I η op s).1.accumulator ∧ (applyOp I η op s).1.accumulator < I := by
  cases op with
  | start =>
    by_cases hr : s.running = true <;> simp [applyOp, start, hr, h0, h1]
  | stop => simp [applyOp, stop, hI]
  | tick n =>
    by_cases hr : s.running = true
    · have hB := tickLoop_seq I η n s
      have hred : applyOp I η (.tick n) s =
          ((tickLoop I η n s).1, (tickLoop I η n s).2.1,
            if (tickLoop I η n s).2.2 then some .handlerError else none) := by
        simp [applyOp, tickOp, hr]
      rw [hred]
      rw [hB.2.2.2.2] at *
      exact ⟨h0, h1⟩
    · have hr2 : s.running = false := by simpa using hr
      simp [applyOp, tickOp, hr2, h0, h1]
  | advanceBy x =>
    have hx : 0 ≤ x := hop
    by_cases hr : s.running = true
    · have ha0 : 0 ≤ s.accumulator + x := add_nonneg h0 hx
      have hfl : (0 : ℤ) ≤ ⌊(s.accumulator + x) / I⌋ :=
        Int.floor_nonneg.mpr (div_nonneg ha0 hI.le)
      have hfrac : (s.accumulator + x) - ((⌊(s.accumulator + x) / I⌋ : ℤ) : ℚ) * I =
          I * Int.fract ((s.accumulator + x) / I) := by
        rw [Int.fract]
        field_simp
        ring
      have hfge : 0 ≤ I * Int.fract ((s.accumulator + x) / I) :=
        mul_nonneg hI.le (Int.fract_nonneg _)
      have hflt : I * Int.fract ((s.accumulator + x) / I) < I := by
        have := mul_lt_mul_of_pos_left (Int.fract_lt_one ((s.accumulator + x) / I)) hI
        simpa using this
      have hred : applyOp I η (.advanceBy x) s =
          ((tickLoop I η (⌊(s.accumulator + x) / I⌋).toNat
              { s with accumulator := (s.accumulator + x) -
                  ((⌊(s.accumulator + x) / I⌋ : ℤ) : ℚ) * I }).1,
           (tickLoop I η (⌊(s.accumulator + x) / I⌋).toNat
              { s with accumulator := (s.accumulator + x) -
                  ((⌊(s.accumulator + x) / I⌋ : ℤ) : ℚ) * I }).2.1,
           if (tickLoop I η (⌊(s.accumulator + x) / I⌋).toNat
              { s with accumulator := (s.accumulator + x) -
                  ((⌊(s.accumulator + x) / I⌋ : ℤ) : ℚ) * I }).2.2 then
             some .handlerError else none) := by
        simp [applyOp, advanceBy, hr]
      have hB := tickLoop_seq I η (⌊(s.accumulator + x) / I⌋).toNat
        { s with accumulator := (s.accumulator + x) -
            ((⌊(s.accumulator + x) / I⌋ : ℤ) : ℚ) * I }
      rw [hred]
      constructor
      · rw [hB.2.2.2.2]
        show 0 ≤ s.accumulator + x - ((⌊(s.accumulator + x) / I⌋ : ℤ) : ℚ) * I
        rw [hfrac]
        exact hfge
      · rw [hB.2.2.2.2]
        show s.accumulator + x - ((⌊(s.accumulator + x) / I⌋ : ℤ) : ℚ) * I < I
        rw [hfrac]
        exact hflt
    · have hr2 : s.running = false := by simpa using hr
      simp [applyOp, advanceBy, hr2, h0, h1]
  | flush =>
    by_cases hr : s.running = true
    · by_cases hpos : 0 < s.accumulator
      · have hspec := fireSingleTick_spec η
          { s with virtualTime := s.virtualTime + s.accumulator, accumulator := 0 }
        have hred : applyOp I η .flush s =
            ((fireSingleTick η
                { s with virtualTime := s.virtualTime + s.accumulator, accumulator := 0 }).1,
             (fireSingleTick η
                { s with virtualTime := s.virtualTime + s.accumulator, accumulator := 0 }).2.1.toList,
             if (fireSingleTick η
                { s with virtualTime := s.virtualTime + s.accumulator, accumulator := 0 }).2.2 then
               some .handlerError else none) := by
          simp [applyOp, flush, hr, hpos]
        rw [hred]
        constructor
        · rw [hspec.2.2.2.2.1]
        · rw [hspec.2.2.2.2.1]
          exact hI
      · simp [applyOp, flush, hr, hpos, h0, h1]
    · have hr2 : s.running = false := by simpa using hr
      simp [applyOp, flush, hr2, h0, h1]
  | reset => simp [applyOp, reset, resetStats, hI]

theorem runOps_acc (I : ℚ) (η : HandlerBehavior) (ops : List TCOp) (s : TCState)
    (hI : 0 < I) (hops : ∀ op ∈ ops, op.nonneg)
    (h0 : 0 ≤ s.accumulator) (h1 : s.accumulator < I) :
    0 ≤ (runOps I η ops s).1.accumulator ∧ (runOps I η ops s).1.accumulator < I := by
  induction ops generalizing s with
  | nil => simpa [runOps] using ⟨h0, h1⟩
  | cons op rest ih =>
    have hstep := applyOp_acc I η op s hI (hops op (by simp)) h0 h1
    have hred : runOps I η (op :: rest) s =
        ((runOps I η rest (applyOp I η op s).1).1,
         (applyOp I η op s).2.1 ++ (runOps I η rest (applyOp I η op s).1).2) := by
      simp [runOps]
    rw [hred]
    exact ih (applyOp I η op s).1 (fun o ho => hops o (by simp [ho])) hstep.1 hstep.2

/-- C10: from construction, any sequence of public test-clock operations
with non-negative `advanceBy` arguments (and a positive interval) leaves the
accumulator non-negative and strictly below `intervalMs` — `advanceBy`
drains it to the residue, `flush` and `stop` zero it — so the `pendingTicks`
getter reads 0 at every observable point. -/
theorem c10_accumulator_invariant (I : ℚ) (η : HandlerBehavior) (ops : List TCOp)
    (hI : 0 < I) (hops : ∀ op ∈ ops, op.nonneg) :
    0 ≤ (runOps I η ops TCState.init).1.accumulator ∧
    (runOps I η ops TCState.init).1.accumulator < I ∧
    pendingTicks I (runOps I η ops TCState.init).1 = 0 := by
  have h := runOps_acc I η ops TCState.init hI hops (le_refl 0) hI
  refine ⟨h.1, h.2, ?_⟩
  unfold pendingTicks
  rw [Int.floor_eq_zero_iff]
  exact Set.mem_Ico.mpr ⟨div_nonneg h.1 hI.le, (div_lt_one hI).mpr h.2⟩

/-- C10 witness: start, advance by 250, flush, stop with interval 100. -/
theorem c10_accumulator_invariant_witness :
    pendingTicks 100 (runOps 100 (fun _ => { throws := false, elapsed := 0 })
      [.start, .advanceBy 250, .flush, .stop] TCState.init).1 = 0 := by
  refine (c10_accumulator_invariant 100 (fun _ => { throws := false, elapsed := 0 })
    [.start, .advanceBy 250, .flush, .stop] (by norm_num) ?_).2.2
  intro op hop
  simp only [List.mem_cons, List.not_mem_nil, or_false] at hop
  rcases hop with h | h | h | h <;> subst h <;> simp [TCOp.nonneg]

theorem applyOp_seq (I : ℚ) (η : HandlerBehavior) (op : TCOp) (s : TCState)
    (hop : op ≠ TCOp.reset) :
    (applyOp I η op s).1.seq = s.seq + (applyOp I η op s).2.1.length ∧
    (applyOp I η op s).2.1.map Tick.seq =
      List.range' s.seq (applyOp I η op s).2.1.length := by
  cases op with
  | start => by_cases hr : s.running = true <;> simp [applyOp, start, hr]
  | stop => simp [applyOp, stop]
  | tick n =>
    by_cases hr : s.running = true
    · have hB := tickLoop_seq I η n s
      have hred : applyOp I η (.tick n) s =
          ((tickLoop I η n s).1, (tickLoop I η n s).2.1,
            if (tickLoop I η n s).2.2 then some .handlerError else none) := by
        simp [applyOp, tickOp, hr]
      rw [hred]
      exact ⟨hB.1, hB.2.1⟩
    · have hr2 : s.running = false := by simpa using hr
      simp [applyOp, tickOp, hr2]
  | advanceBy x =>
    by_cases hr : s.running = true
    · have hB := tickLoop_seq I η (⌊(s.accumulator + x) / I⌋).toNat
        { s with accumulator := (s.accumulator + x) -
            ((⌊(s.accumulator + x) / I⌋ : ℤ) : ℚ) * I }
      have hred : applyOp I η (.advanceBy x) s =
          ((tickLoop I η (⌊(s.accumulator + x) / I⌋).toNat
              { s with accumulator := (s.accumulator + x) -
                  ((⌊(s.accumulator + x) / I⌋ : ℤ) : ℚ) * I }).1,
           (tickLoop I η (⌊(s.accumulator + x) / I⌋).toNat
              { s with accumulator := (s.accumulator + x) -
                  ((⌊(s.accumulator + x) / I⌋ : ℤ) : ℚ) * I }).2.1,
           if (tickLoop I η (⌊(s.accumulator + x) / I⌋).toNat
              { s with accumulator := (s.accumulator + x) -
                  ((⌊(s.accumulator + x) / I⌋ : ℤ) : ℚ) * I }).2.2 then
             some .handlerError else none) := by
        simp [applyOp, advanceBy, hr]
      rw [hred]
      exact ⟨hB.1, hB.2.1⟩
    · have hr2 : s.running = false := by simpa using hr
      simp [applyOp, advanceBy, hr2]
  | flush =>
    by_cases hr : s.running = true
    · by_cases hpos : 0 < s.accumulator
      · have hspec := fireSingleTick_spec η
          { s with virtualTime := s.virtualTime + s.accumulator, accumulator := 0 }
        have hred : applyOp I η .flush s =
            ((fireSingleTick η
                { s with virtualTime := s.virtualTime + s.accumulator, accumulator := 0 }).1,
             (fireSingleTick η
                { s with virtualTime := s.virtualTime + s.accumulator, accumulator := 0 }).2.1.toList,
             if (fireSingleTick η
                { s with virtualTime := s.virtualTime + s.accumulator, accumulator := 0 }).2.2 then
               some .handlerError else none) := by
          simp [applyOp, flush, hr, hpos]
        rw [hred]
        exact ⟨hspec.1, hspec.2.1⟩
      · simp [applyOp, flush, hr, hpos]
    · have hr2 : s.running = false := by simpa using hr
      simp [applyOp, flush, hr2]
  | reset => exact absurd rfl hop

theorem runOps_seq (I : ℚ) (η : HandlerBehavior) (ops : List TCOp) (s : TCState)
    (hops : TCOp.reset ∉ ops) :
    (runOps I η ops s).1.seq = s.seq + (runOps I η ops s).2.length ∧
    (runOps I η ops s).2.map Tick.seq =
      List.range' s.seq (runOps I η ops s).2.length := by
  induction ops generalizing s with
  | nil => simp [runOps]
  | cons op rest ih =>
    have hop : op ≠ TCOp.reset := by
      intro h
      exact hops (by simp [h])
    have hstep := applyOp_seq I η op s hop
    have hrest := ih (applyOp I η op s).1 (fun h => hops (by simp [h]))
    have hred : runOps I η (op :: rest) s =
        ((runOps I η rest (applyOp I η op s).1).1,
         (applyOp I η op s).2.1 ++ (runOps I η rest (applyOp I η op s).1).2) := by
      simp [runOps]
    rw [hred]
    refine ⟨?_, ?_⟩
    · simp only [List.length_append]
      have h1 := hstep.1
      have h2 := hrest.1
      omega
    · simp only [List.map_append, List.length_append, hstep.2, hrest.2]
      rw [hstep.1, List.range'_append_1]
      congr 1
      omega

end TestClock

namespace IntervalClock

theorem fireTick_base (I : ℚ) (w : Bool) (x : FireIn) (s : ICState)
    (hh : s.handlerPresent = true) :
    (fireTick I w x s).1.handlerPresent = true ∧
    (fireTick I w x s).1.seq = s.seq + 1 ∧
    (fireTick I w x s).2.1 =
      some { ts := x.now, seq := s.seq, reason := x.reason, drift := x.drift } := by
  rcases hd : x.drift with _ | d
  · by_cases hth : x.outcome.throws = true <;> simp [fireTick, hh, hd, hth]
  · by_cases hhigh : |d| > I * (4 / 5) <;> by_cases hth : x.outcome.throws = true <;>
      simp [fireTick, hh, hd, hhigh, hth]

theorem run_seq (I : ℚ) (w : Bool) (l : List FireIn) (s : ICState)
    (hh : s.handlerPresent = true) :
    (run I w l s).1.handlerPresent = true ∧
    (run I w l s).1.seq = s.seq + l.length ∧
    (run I w l s).2.length = l.length ∧
    (run I w l s).2.map (fun p => p.1.seq) = List.range' s.seq l.length := by
  induction l generalizing s with
  | nil => simp [run, hh]
  | cons x rest ih =>
    have hb := fireTick_base I w x s hh
    rcases hf : fireTick I w x s with ⟨s2, topt, warned⟩
    rw [hf] at hb
    simp only at hb
    have hrest := ih s2 hb.1
    have hred : run I w (x :: rest) s =
        ((run I w rest s2).1,
         (topt.map (fun t => (t, warned))).toList ++ (run I w rest s2).2) := by
      simp [run, hf]
    rw [hred, hb.2.2]
    refine ⟨hrest.1, ?_, ?_, ?_⟩
    · rw [hrest.2.1, hb.2.1]
      simp
      omega
    · simp [hrest.2.2.1]
    · simp [hrest.2.2.2, hb.2.1, List.range'_succ]

end IntervalClock

namespace BridgeClock

theorem push_base (now : ℚ) (o : PushOutcome) (s : BCState)
    (hr : s.running = true) (hh : s.handlerPresent = true) :
    (push now o s).1.running = true ∧
    (push now o s).1.handlerPresent = true ∧
    (push now o s).1.seq = s.seq + 1 ∧
    (push now o s).2 = some { ts := now, seq := s.seq, reason := .bridge, drift := none } := by
  cases o <;> simp [push, hr, hh]

theorem runPushes_seq (ps : List (ℚ × PushOutcome)) (s : BCState)
    (hr : s.running = true) (hh : s.handlerPresent = true) :
    (runPushes ps s).1.running = true ∧
    (runPushes ps s).1.handlerPresent = true ∧
    (runPushes ps s).1.seq = s.seq + ps.length ∧
    (runPushes ps s).2.length = ps.length ∧
    (runPushes ps s).2.map Tick.seq = List.range' s.seq ps.length := by
  induction ps generalizing s with
  | nil => simp [runPushes, hr, hh]
  | cons p rest ih =>
    have hb := push_base p.1 p.2 s hr hh
    rcases hf : push p.1 p.2 s with ⟨s2, topt⟩
    rw [hf] at hb
    simp only at hb
    have hrest := ih s2 hb.1 hb.2.1
    have hred : runPushes (p :: rest) s =
        ((runPushes rest s2).1, topt.toList ++ (runPushes rest s2).2) := by
      simp [runPushes, hf]
    rw [hred, hb.2.2.2]
    refine ⟨hrest.1, hrest.2.1, ?_, ?_, ?_⟩
    · rw [hrest.2.2.1, hb.2.2.1]
      simp
      omega
    · simp [hrest.2.2.2.1]
    · simp [hrest.2.2.2.2, hb.2.2.1, List.range'_succ]

end BridgeClock

namespace IntervalClock

theorem fireTick_chd (I : ℚ) (w : Bool) (x : FireIn) (s : ICState)
    (hh : s.handlerPresent = true) (hd : x.drift ≠ none) :
    (fireTick I w x s).1.consecutiveHighDrift =
      (if highDrift I x = true then s.consecutiveHighDrift + 1 else 0) ∧
    (fireTick I w x s).2.2 =
      (decide (5 ≤ (if highDrift I x = true then s.consecutiveHighDrift + 1 else 0)) && w) := by
  rcases hdx : x.drift with _ | d
  · exact absurd hdx hd
  · by_cases hhigh : |d| > I * (4 / 5) <;> by_cases hth : x.outcome.throws = true <;>
      simp [fireTick, highDrift, hh, hdx, hhigh, hth]

theorem run_append (I : ℚ) (w : Bool) (l1 l2 : List FireIn) (s : ICState) :
    run I w (l1 ++ l2) s =
      ((run I w l2 (run I w l1 s).1).1,
       (run I w l1 s).2 ++ (run I w l2 (run I w l1 s).1).2) := by
  induction l1 generalizing s with
  | nil => simp [run]
  | cons x rest ih => simp [run, ih]

theorem trailHigh_snoc (I : ℚ) (l : List FireIn) (x : FireIn) :
    trailHigh I (l ++ [x]) = if highDrift I x = true then trailHigh I l + 1 else 0 := by
  by_cases hx : highDrift I x = true <;>
    simp [trailHigh, hx, List.takeWhile_cons]

theorem run_chd (I : ℚ) (w : Bool) (l : List FireIn) (s : ICState)
    (hh : s.handlerPresent = true) (hc : s.consecutiveHighDrift = 0)
    (hdr : ∀ y ∈ l, y.drift ≠ none) :
    (run I w l s).1.consecutiveHighDrift = trailHigh I l := by
  revert hdr
  induction l using List.reverseRecOn with
  | nil =>
    intro _
    simpa [run, trailHigh] using hc
  | append_singleton m x ih =>
    intro hdr
    have hp : (run I w m s).1.handlerPresent = true := (run_seq I w m s hh).1
    have hstep := fireTick_chd I w x (run I w m s).1 hp (hdr x (by simp))
    have hone : (run I w (m ++ [x]) s).1 = (fireTick I w x (run I w m s).1).1 := by
      rw [run_append]
      simp [run]
    rw [hone, hstep.1, ih (fun y hy => hdr y (by simp [hy])), trailHigh_snoc]

theorem run_get_warn (I : ℚ) (w : Bool) (l : List FireIn) (s : ICState)
    (hh : s.handlerPresent = true) :
    ∀ (k : ℕ) (p : Tick × Bool), (run I w l s).2.get? k = some p →
      ∃ x, l.get? k = some x ∧
        p.2 = (fireTick I w x (run I w (l.take k) s).1).2.2 := by
  induction l generalizing s with
  | nil =>
    intro k p hp
    simp [run] at hp
  | cons x rest ih =>
    intro k p hp
    have hb := fireTick_base I w x s hh
    rcases hf : fireTick I w x s with ⟨s2, topt, warned⟩
    rw [hf] at hb
    simp only at hb
    have hred : (run I w (x :: rest) s).2 =
        ({ ts := x.now, seq := s.seq, reason := x.reason, drift := x.drift }, warned)
          :: (run I w rest s2).2 := by
      simp [run, hf, hb.2.2]
    rw [hred] at hp
    cases k with
    | zero =>
      simp only [List.get?] at hp
      refine ⟨x, rfl, ?_⟩
      cases hp
      simp [run, hf]
    | succ k =>
      simp only [List.get?] at hp
      obtain ⟨y, hy, hpy⟩ := ih s2 hb.1 k p hp
      refine ⟨y, by simpa using hy, ?_⟩
      rw [hpy]
      have htk : (run I w ((x :: rest).take (k + 1)) s).1 =
          (run I w (rest.take k) s2).1 := by
        simp [List.take_succ_cons, run, hf]
      rw [htk]

theorem trailHigh_ge_iff (I : ℚ) (c : ℕ) (m : List FireIn) :
    c ≤ trailHigh I m ↔
      (c ≤ m.length ∧ ∀ j y, m.length - c ≤ j → m.get? j = some y →
        highDrift I y = true) := by
  induction m using List.reverseRecOn generalizing c with
  | nil =>
    constructor
    · intro h
      refine ⟨by simpa [trailHigh] using h, ?_⟩
      intro j y _ hy
      simp at hy
    · intro h
      simpa [trailHigh] using h.1
  | append_singleton m x ih =>
    rw [trailHigh_snoc]
    by_cases hx : highDrift I x = true
    · rw [if_pos hx]
      cases c with
      | zero =>
        constructor
        · intro _
          refine ⟨Nat.zero_le _, ?_⟩
          intro j y hj hy
          obtain ⟨hlt, _⟩ := List.get?_eq_some.mp hy
          simp only [List.length_append, List.length_cons, List.length_nil,
            Nat.sub_zero] at hj hlt
          omega
        · intro _
          exact Nat.zero_le _
      | succ c =>
        rw [Nat.succ_le_succ_iff, ih c]
        constructor
        · rintro ⟨hcl, hall⟩
          refine ⟨by simp only [List.length_append, List.length_cons, List.length_nil]; omega, ?_⟩
          intro j y hj hy
          by_cases hjl : j < m.length
          · rw [List.get?_append hjl] at hy
            refine hall j y ?_ hy
            simp only [List.length_append, List.length_cons, List.length_nil] at hj
            omega
          · obtain ⟨hlt, _⟩ := List.get?_eq_some.mp hy
            simp only [List.length_append, List.length_cons, List.length_nil] at hlt
            have hj2 : j = m.length := by omega
            subst hj2
            rw [List.get?_concat_length] at hy
            cases hy
            exact hx
        · rintro ⟨hcl, hall⟩
          simp only [List.length_append, List.length_cons, List.length_nil] at hcl
          refine ⟨by omega, ?_⟩
          intro j y hj hy
          obtain ⟨hlt, _⟩ := List.get?_eq_some.mp hy
          refine hall j y ?_ ?_
          · simp only [List.length_append, List.length_cons, List.length_nil]
            omega
          · rw [List.get?_append hlt]
            exact hy
    · rw [if_neg hx]
      constructor
      · intro hc0
        have hc00 : c = 0 := by omega
        subst hc00
        refine ⟨Nat.zero_le _, ?_⟩
        intro j y hj hy
        obtain ⟨hlt, _⟩ := List.get?_eq_some.mp hy
        simp only [List.length_append, List.length_cons, List.length_nil,
          Nat.sub_zero] at hj hlt
        omega
      · rintro ⟨hcl, hall⟩
        by_contra hc0
        have hc1 : 1 ≤ c := by omega
        have hxx := hall m.length x
          (by simp only [List.length_append, List.length_cons, List.length_nil]; omega)
          (List.get?_concat_length m x)
        exact hx hxx

end IntervalClock

/-- C8: in the interval clock's drift-warning detector, a fired tick with
`|drift| > intervalMs * 0.8` increments `consecutiveHighDrift` and invokes
`onDriftWarning` exactly when the callback is configured and the counter has
reached 5; a fired tick carrying a drift at or below the threshold resets
the counter to 0 and never warns; and in a run of fired ticks from an epoch
start (counter 0, every tick carrying a drift, as all interval-clock call
sites do), the warning fires at position `k` exactly when the five
consecutive fire inputs at positions `k-4 .. k` all exceed the threshold —
so never before 5 consecutive high-drift ticks have occurred. -/
theorem c8_drift_warning (I : ℚ) (w : Bool) (x : IntervalClock.FireIn)
    (s : IntervalClock.ICState) (l : List IntervalClock.FireIn) :
    (s.handlerPresent = true → IntervalClock.highDrift I x = true →
      (IntervalClock.fireTick I w x s).1.consecutiveHighDrift =
        s.consecutiveHighDrift + 1 ∧
      ((IntervalClock.fireTick I w x s).2.2 = true ↔
        (w = true ∧ 5 ≤ s.consecutiveHighDrift + 1))) ∧
    (s.handlerPresent = true → x.drift ≠ none → IntervalClock.highDrift I x = false →
      (IntervalClock.fireTick I w x s).1.consecutiveHighDrift = 0 ∧
      (IntervalClock.fireTick I w x s).2.2 = false) ∧
    (s.handlerPresent = true → s.consecutiveHighDrift = 0 →
      (∀ y ∈ l, y.drift ≠ none) →
      ∀ (k : ℕ) (p : Tick × Bool), (IntervalClock.run I w l s).2.get? k = some p →
        (p.2 = true ↔ (w = true ∧ 4 ≤ k ∧
          ∀ j y, k - 4 ≤ j → j ≤ k → l.get? j = some y →
            IntervalClock.highDrift I y = true))) := by
  refine ⟨?_, ?_, ?_⟩
  · intro hh hx
    have hd : x.drift ≠ none := by
      intro hdn
      simp [IntervalClock.highDrift, hdn] at hx
    have hstep := IntervalClock.fireTick_chd I w x s hh hd
    rw [if_pos hx] at hstep
    refine ⟨hstep.1, ?_⟩
    rw [hstep.2]
    simp [Bool.and_eq_true, and_comm]
  · intro hh hd hx
    have hstep := IntervalClock.fireTick_chd I w x s hh hd
    rw [if_neg (by simp [hx])] at hstep
    refine ⟨hstep.1, ?_⟩
    rw [hstep.2]
    simp
  · intro hh hc hdr k p hp
    obtain ⟨xk, hxk, hpw⟩ := IntervalClock.run_get_warn I w l s hh k p hp
    obtain ⟨hk, _⟩ := List.get?_eq_some.mp hxk
    have hpre : (IntervalClock.run I w (l.take k) s).1.handlerPresent = true :=
      (IntervalClock.run_seq I w (l.take k) s hh).1
    have hchd : (IntervalClock.run I w (l.take k) s).1.consecutiveHighDrift =
        IntervalClock.trailHigh I (l.take k) :=
      IntervalClock.run_chd I w (l.take k) s hh hc
        (fun y hy => hdr y (List.mem_of_mem_take hy))
    have hxmem : xk ∈ l := List.get?_mem hxk
    have hstep := IntervalClock.fireTick_chd I w xk
      (IntervalClock.run I w (l.take k) s).1 hpre (hdr xk hxmem)
    rw [hpw, hstep.2, hchd]
    have htk : l.take (k + 1) = l.take k ++ [xk] := by
      rw [List.take_succ]
      rw [← List.get?_eq_getElem?, hxk]
      rfl
    have hsucc : IntervalClock.trailHigh I (l.take (k + 1)) =
        if IntervalClock.highDrift I xk = true then
          IntervalClock.trailHigh I (l.take k) + 1 else 0 := by
      rw [htk, IntervalClock.trailHigh_snoc]
    rw [← hsucc]
    have hlen : (l.take (k + 1)).length = k + 1 := by
      rw [List.length_take]
      omega
    rw [Bool.and_eq_true, decide_eq_true_eq]
    rw [IntervalClock.trailHigh_ge_iff I 5 (l.take (k + 1)), hlen]
    constructor
    · rintro ⟨⟨hk5, hall⟩, hw⟩
      refine ⟨hw, by omega, ?_⟩
      intro j y hj1 hj2 hy
      refine hall j y (by omega) ?_
      rw [List.get?_take (by omega)]
      exact hy
    · rintro ⟨hw, hk4, hall⟩
      refine ⟨⟨by omega, ?_⟩, hw⟩
      intro j y hj hy
      have hjlt : j < k + 1 := by
        obtain ⟨hlt, _⟩ := List.get?_eq_some.mp hy
        rw [hlen] at hlt
        exact hlt
      rw [List.get?_take hjlt] at hy
      exact hall j y (by omega) (by omega) hy

/-- C8 witness: five consecutive high drifts (90 against interval 100) make
the warning fire on the fifth tick of the epoch. -/
theorem c8_drift_warning_witness :
    ((IntervalClock.run 100 true
        (List.replicate 5
          ({ reason := .interval, drift := some 90, now := 0,
             outcome := { throws := false, elapsed := 0 } } : IntervalClock.FireIn))
        (IntervalClock.start IntervalClock.ICState.init).1).2.get? 4).map
      (fun p => p.2) = some true := by
  have hpres : (IntervalClock.start IntervalClock.ICState.init).1.handlerPresent = true :=
    rfl
  have hrun := (c8_drift_warning 100 true
    { reason := .interval, drift := some 90, now := 0,
      outcome := { throws := false, elapsed := 0 } }
    (IntervalClock.start IntervalClock.ICState.init).1
    (List.replicate 5
      { reason := .interval, drift := some 90, now := 0,
        outcome := { throws := false, elapsed := 0 } })).2.2
    hpres rfl
    (by
      intro y hy
      have hmem := List.eq_of_mem_replicate hy
      subst hmem
      simp)
  have hlen : (IntervalClock.run 100 true
      (List.replicate 5
        ({ reason := .interval, drift := some 90, now := 0,
           outcome := { throws := false, elapsed := 0 } } : IntervalClock.FireIn))
      (IntervalClock.start IntervalClock.ICState.init).1).2.length = 5 := by
    have := (IntervalClock.run_seq 100 true
      (List.replicate 5
        ({ reason := .interval, drift := some 90, now := 0,
           outcome := { throws := false, elapsed := 0 } } : IntervalClock.FireIn))
      (IntervalClock.start IntervalClock.ICState.init).1 hpres).2.2.1
    simpa using this
  rcases hp : (IntervalClock.run 100 true
      (List.replicate 5
        ({ reason := .interval, drift := some 90, now := 0,
           outcome := { throws := false, elapsed := 0 } } : IntervalClock.FireIn))
      (IntervalClock.start IntervalClock.ICState.init).1).2.get? 4 with _ | p
  · have hnone := List.get?_eq_none.mp hp
    omega
  · have hiff := hrun 4 p hp
    have hpt : p.2 = true := by
      rw [hiff]
      refine ⟨rfl, by omega, ?_⟩
      intro j y hj1 hj2 hy
      have hmem := List.eq_of_mem_replicate (List.get?_mem hy)
      subst hmem
      simp only [IntervalClock.highDrift, decide_eq_true_eq]
      rw [abs_of_nonneg (by norm_num : (0 : ℚ) ≤ 90)]
      norm_num
    simp [hpt]

/-- C1 counterexample: a test clock that ticked once, was stopped and is
then started again — the second `start` succeeds, yet the observable `seq`
is 1 (not 0) and the stats are not all zero (`tickCount` is still 1),
because the test clock's `start` resets nothing. -/
theorem c1_start_counterexample :
    (TestClock.start TestClock.TCState.init).2 = none ∧
    (TestClock.tickOp 100 (fun _ => { throws := false, elapsed := 0 }) 1
      (TestClock.start TestClock.TCState.init).1).2.2 = none ∧
    (TestClock.start (TestClock.stop
      (TestClock.tickOp 100 (fun _ => { throws := false, elapsed := 0 }) 1
        (TestClock.start TestClock.TCState.init).1).1)).2 = none ∧
    (TestClock.start (TestClock.stop
      (TestClock.tickOp 100 (fun _ => { throws := false, elapsed := 0 }) 1
        (TestClock.start TestClock.TCState.init).1).1)).1.seq = 1 ∧
    ¬ TestClock.stats (TestClock.start (TestClock.stop
      (TestClock.tickOp 100 (fun _ => { throws := false, elapsed := 0 }) 1
        (TestClock.start TestClock.TCState.init).1).1)).1 = TickStats.zero := by
  refine ⟨by decide, by decide, by decide, by decide, by decide⟩

/-- C1 (amended): after a successful `start` of the interval clock or the
bridge clock, `seq` is 0 and all stats are zero, and the Tick.seq values
emitted during the epoch are 0, 1, 2, ... in order; the test clock's `start`
instead leaves `seq`, the stats and the virtual time exactly as they were
(they are zero only on a fresh clock or after `reset()`), and the ticks any
reset-free operation sequence emits carry consecutive seq values continuing
from the current `seq`. -/
theorem c1_start_epoch :
    (∀ s : IntervalClock.ICState, s.running = false →
      (IntervalClock.start s).2 = none ∧
      (IntervalClock.start s).1.seq = 0 ∧
      IntervalClock.stats (IntervalClock.start s).1 = TickStats.zero) ∧
    (∀ s : BridgeClock.BCState, s.running = false →
      (BridgeClock.start s).2 = none ∧
      (BridgeClock.start s).1.seq = 0 ∧
      BridgeClock.stats (BridgeClock.start s).1 = TickStats.zero) ∧
    (∀ s : TestClock.TCState, s.running = false →
      (TestClock.start s).2 = none ∧
      (TestClock.start s).1.seq = s.seq ∧
      TestClock.stats (TestClock.start s).1 = TestClock.stats s ∧
      (TestClock.start s).1.virtualTime = s.virtualTime) ∧
    (∀ (I : ℚ) (w : Bool) (l : List IntervalClock.FireIn) (s : IntervalClock.ICState),
      s.running = false →
      (IntervalClock.run I w l (IntervalClock.start s).1).2.map (fun p => p.1.seq) =
        List.range l.length) ∧
    (∀ (ps : List (ℚ × BridgeClock.PushOutcome)) (s : BridgeClock.BCState),
      s.running = false →
      (BridgeClock.runPushes ps (BridgeClock.start s).1).2.map Tick.seq =
        List.range ps.length) ∧
    (∀ (I : ℚ) (η : HandlerBehavior) (ops : List TestClock.TCOp) (s : TestClock.TCState),
      TestClock.TCOp.reset ∉ ops →
      (TestClock.runOps I η ops s).2.map Tick.seq =
        List.range' s.seq (TestClock.runOps I η ops s).2.length) := by
  refine ⟨?_, ?_, ?_, ?_, ?_, ?_⟩
  · intro s hr
    refine ⟨by simp [IntervalClock.start, hr],
      by simp [IntervalClock.start, hr, IntervalClock.resetStats], ?_⟩
    simp [IntervalClock.start, hr, IntervalClock.resetStats, IntervalClock.stats,
      TickStats.zero]
  · intro s hr
    refine ⟨by simp [BridgeClock.start, hr], by simp [BridgeClock.start, hr], ?_⟩
    simp [BridgeClock.start, hr, BridgeClock.stats, TickStats.zero]
  · intro s hr
    refine ⟨by simp [TestClock.start, hr], by simp [TestClock.start, hr], ?_, ?_⟩ <;>
      simp [TestClock.start, hr, TestClock.stats]
  · intro I w l s hr
    have hs : (IntervalClock.start s).1.handlerPresent = true := by
      simp [IntervalClock.start, hr, IntervalClock.resetStats]
    have h := IntervalClock.run_seq I w l (IntervalClock.start s).1 hs
    have hseq : (IntervalClock.start s).1.seq = 0 := by
      simp [IntervalClock.start, hr, IntervalClock.resetStats]
    rw [h.2.2.2, hseq, List.range_eq_range']
  · intro ps s hr
    have hs1 : (BridgeClock.start s).1.running = true := by
      simp [BridgeClock.start, hr]
    have hs2 : (BridgeClock.start s).1.handlerPresent = true := by
      simp [BridgeClock.start, hr]
    have h := BridgeClock.runPushes_seq ps (BridgeClock.start s).1 hs1 hs2
    have hseq : (BridgeClock.start s).1.seq = 0 := by
      simp [BridgeClock.start, hr]
    rw [h.2.2.2.2, hseq, List.range_eq_range']
  · intro I η ops s hops
    have h := TestClock.runOps_seq I η ops s hops
    exact h.2

/-- C1 witness: the amended statement applied to freshly created clocks. -/
theorem c1_start_epoch_witness :
    (IntervalClock.ICState.init.running = false) ∧
    (IntervalClock.start IntervalClock.ICState.init).2 = none ∧
    IntervalClock.stats (IntervalClock.start IntervalClock.ICState.init).1 =
      TickStats.zero ∧
    (TestClock.start TestClock.TCState.init).1.seq = TestClock.TCState.init.seq := by
  have h := c1_start_epoch
  exact ⟨rfl, (h.1 IntervalClock.ICState.init rfl).1,
    (h.1 IntervalClock.ICState.init rfl).2.2,
    (h.2.2.1 TestClock.TCState.init rfl).2.1⟩

end Cadence
